import Mathlib

/-!
TimeTracker (ChronosTrack): a shallow embedding of `src/app.js`.

The module-level `state` object of `app.js` becomes the record `AppState`; every handler
of the script becomes a function `AppState → AppState`.  What the handlers read from their
environment (the text of the task input, the clock, the handle returned by `setInterval`)
is an explicit argument.

Modelling conventions.
* JavaScript numbers that the script only counts with (task ids, the session counter,
  list lengths, hour totals) are `Nat`, and the countdown fields `minutes` and `seconds`,
  which the script decrements, are `Int`; all stay below `2^53` in absolute value, where
  JavaScript integers are exact.  The one place where the script divides
  (`updateMomentum`) is modelled with IEEE-754 binary64 rounding made explicit.
* The browser's table of live interval timers is the field `liveIntervals`: `setInterval`
  adds the handle it returns, `clearInterval` removes the handle it is given.
* Of the DOM only the texts the timer code writes are kept (`timerDisplay`,
  `startBtnText`, `startBtnRunning`, `sessionDisplay`).  `localStorage`, the audio
  notification and the re-rendering of lists are outside the model.
-/

namespace TimeTracker

/-! ## Data model -/

/-- One entry of `state.tasks`, as pushed by `addTask`. -/
structure Task where
  id : Nat
  text : String
  completed : Bool
  createdAt : String
deriving DecidableEq, Repr

/-- One value of `state.logs`: the note and the category of an hour. -/
structure HourLog where
  text : String
  category : String
deriving DecidableEq, Repr

/-- The object `state.timer`.  `interval` is `null` (`none`) until the first `setInterval`;
`clearInterval` never resets it, so it may hold a stale handle. -/
structure Timer where
  minutes : Int
  seconds : Int
  isActive : Bool
  mode : String
  interval : Option Nat
deriving DecidableEq, Repr

/-- The object `state` together with the parts of the browser the timer code acts on.
`logs` lists the own properties of `state.logs` as key/value pairs. -/
structure AppState where
  tasks : List Task
  logs : List (Nat × HourLog)
  selectedDate : String
  timer : Timer
  sessions : Nat
  liveIntervals : List Nat
  timerDisplay : String
  startBtnText : String
  startBtnRunning : Bool
  sessionDisplay : String
deriving DecidableEq, Repr

/-- The initial value of `state` (lines 4-16), for a given date string, with no interval
timer registered and the given initial texts of the page. -/
def initialState (date display btn sess : String) : AppState :=
  { tasks := [], logs := [], selectedDate := date,
    timer := { minutes := 25, seconds := 0, isActive := false, mode := "work",
               interval := none },
    sessions := 0, liveIntervals := [], timerDisplay := display,
    startBtnText := btn, startBtnRunning := false, sessionDisplay := sess }

/-! ## Browser primitives -/

/-- The call `setInterval(tickTimer, 1000)`, where `handle` is the identifier the browser
returns: the timer becomes live. -/
def setInterval (handle : Nat) (s : AppState) : AppState :=
  { s with liveIntervals := handle :: s.liveIntervals }

/-- The call `clearInterval(h)`: the timer with that handle, if any, stops being live;
`clearInterval(null)` and a handle that is not live do nothing. -/
def clearInterval (h : Option Nat) (s : AppState) : AppState :=
  match h with
  | none => s
  | some id => { s with liveIntervals := s.liveIntervals.filter (fun x => x != id) }

/-- The expression `String(n).padStart(2, '0')`. -/
def pad2 (n : Int) : String :=
  let d := toString n
  if d.length < 2 then "0" ++ d else d

/-! ## Timer (lines 319-408) -/

/-- Function `updateTimerDisplay` (lines 400-404). -/
def updateTimerDisplay (s : AppState) : AppState :=
  { s with timerDisplay := pad2 s.timer.minutes ++ ":" ++ pad2 s.timer.seconds }

/-- Function `updateSessionDisplay` (lines 406-408). -/
def updateSessionDisplay (s : AppState) : AppState :=
  { s with sessionDisplay := "Sessions today: " ++ toString s.sessions }

/-- The two statements that put the start button back to its idle look. -/
def showStart (s : AppState) : AppState :=
  { s with startBtnText := "Start", startBtnRunning := false }

/-- Function `setTimerMode` (lines 382-398). -/
def setTimerMode (mode : String) (s : AppState) : AppState :=
  let s := { s with timer := { s.timer with mode := mode } }
  let s := { s with timer := { s.timer with isActive := false } }
  let s := clearInterval s.timer.interval s
  let s := showStart s
  let s := { s with timer := { s.timer with minutes := if mode = "work" then 25 else 5 } }
  let s := { s with timer := { s.timer with seconds := 0 } }
  updateTimerDisplay s

/-- Function `resetTimer` (lines 370-380). -/
def resetTimer (s : AppState) : AppState :=
  let s := { s with timer := { s.timer with isActive := false } }
  let s := clearInterval s.timer.interval s
  let s := showStart s
  let minutes := if s.timer.mode = "work" then 25 else 5
  let s := { s with timer := { s.timer with minutes := minutes } }
  let s := { s with timer := { s.timer with seconds := 0 } }
  updateTimerDisplay s

/-- Function `completeTimer` (lines 346-368). -/
def completeTimer (s : AppState) : AppState :=
  let s := { s with timer := { s.timer with isActive := false } }
  let s := clearInterval s.timer.interval s
  let s := showStart s
  let s := if s.timer.mode = "work" then
      updateSessionDisplay { s with sessions := s.sessions + 1 }
    else s
  setTimerMode (if s.timer.mode = "work" then "break" else "work") s

/-- Function `tickTimer` (lines 333-344). -/
def tickTimer (s : AppState) : AppState :=
  let s := if s.timer.seconds > 0 then
      { s with timer := { s.timer with seconds := s.timer.seconds - 1 } }
    else if s.timer.minutes > 0 then
      let s := { s with timer := { s.timer with minutes := s.timer.minutes - 1 } }
      { s with timer := { s.timer with seconds := 59 } }
    else
      completeTimer s
  updateTimerDisplay s

/-- Function `toggleTimer` (lines 319-331); `handle` is what `setInterval` returns when
the timer is started (it is not used when the timer is paused). -/
def toggleTimer (handle : Nat) (s : AppState) : AppState :=
  let s := { s with timer := { s.timer with isActive := !s.timer.isActive } }
  if s.timer.isActive then
    let s := { s with startBtnText := "Pause", startBtnRunning := true }
    let s := setInterval handle s
    { s with timer := { s.timer with interval := some handle } }
  else
    let s := showStart s
    clearInterval s.timer.interval s

/-! ## Runs of the timer -/

/-- The remaining time of the countdown, in seconds. -/
def remaining (s : AppState) : Int := 60 * s.timer.minutes + s.timer.seconds

/-- Whether `tickTimer`, run in state `s`, reaches its `else` branch, the only place where
it calls `completeTimer`: neither `seconds > 0` nor `minutes > 0` holds. -/
def tickCompletes (s : AppState) : Bool :=
  !(decide (s.timer.seconds > 0)) && !(decide (s.timer.minutes > 0))

/-- The state after `n` calls of `tickTimer` in a row. -/
def tickTimerN : Nat → AppState → AppState
  | 0, s => s
  | n + 1, s => tickTimerN n (tickTimer s)

/-- The number of calls of `completeTimer` made during `n` calls of `tickTimer` in a row
that start in state `s`. -/
def completionsIn : Nat → AppState → Nat
  | 0, _ => 0
  | n + 1, s => (if tickCompletes s then 1 else 0) + completionsIn n (tickTimer s)

/-- The live timers after `clearInterval`. -/
def clearedHandles (h : Option Nat) (live : List Nat) : List Nat :=
  match h with
  | none => live
  | some id => live.filter (fun x => x != id)

/-- The states the page can reach from a state with an inactive timer, no stored handle
and no live interval timer, by the timer handlers: the three button handlers
(`toggleTimer`, `resetTimer`, `setTimerMode`), `completeTimer`, and `tickTimer`, which
only a live interval timer calls.  The handle `setInterval` returns is arbitrary. -/
inductive Reachable : AppState → Prop
  | init (s : AppState) (hact : s.timer.isActive = false) (hint : s.timer.interval = none)
      (hlive : s.liveIntervals = []) : Reachable s
  | toggle (s : AppState) (handle : Nat) (h : Reachable s) : Reachable (toggleTimer handle s)
  | reset (s : AppState) (h : Reachable s) : Reachable (resetTimer s)
  | setMode (s : AppState) (mode : String) (h : Reachable s) : Reachable (setTimerMode mode s)
  | complete (s : AppState) (h : Reachable s) : Reachable (completeTimer s)
  | tick (s : AppState) (h : Reachable s) (hfire : s.liveIntervals ≠ []) :
      Reachable (tickTimer s)

/-- The invariant behind the scheduler count: an active timer has exactly one live interval
timer, the one whose handle is stored in `state.timer.interval`; an inactive timer has
none. -/
def SchedulerInv (s : AppState) : Prop :=
  (s.timer.isActive = true → ∃ h, s.timer.interval = some h ∧ s.liveIntervals = [h]) ∧
  (s.timer.isActive = false → s.liveIntervals = [])

/-! ## Tasks (lines 178-211) -/

/-- The characters `String.prototype.trim` removes: the ECMAScript `WhiteSpace` and
`LineTerminator` code points. -/
def isJsWhiteSpace (c : Char) : Bool :=
  decide (c.toNat ∈ [0x09, 0x0A, 0x0B, 0x0C, 0x0D, 0x20, 0xA0, 0x1680, 0x2028, 0x2029,
    0x202F, 0x205F, 0x3000, 0xFEFF]) || (decide (0x2000 ≤ c.toNat) && decide (c.toNat ≤ 0x200A))

/-- The method `String.prototype.trim`: leading and trailing white space is dropped. -/
def jsTrim (text : String) : String :=
  ⟨((text.data.dropWhile isJsWhiteSpace).reverse.dropWhile isJsWhiteSpace).reverse⟩

/-- The ids of a task list, in order. -/
def taskIds (tasks : List Task) : List Nat := tasks.map (fun t => t.id)

/-- Function `addTask` (lines 178-194).  `input` is `elements.newTaskInput.value`, `now`
is the value of `Date.now()` and `createdAt` that of `new Date().toISOString()`. -/
def addTask (input : String) (now : Nat) (createdAt : String) (s : AppState) : AppState :=
  let text := jsTrim input
  if text = "" then s
  else
    { s with tasks := s.tasks ++
        [{ id := now, text := text, completed := false, createdAt := createdAt }] }

/-- The effect of `state.tasks.find(t => t.id === id)` followed by the assignment
`task.completed = !task.completed`: the first task with that id is changed in place. -/
def toggleFirst (id : Nat) : List Task → List Task
  | [] => []
  | t :: ts =>
    if t.id = id then { t with completed := !t.completed } :: ts
    else t :: toggleFirst id ts

/-- Function `toggleTask` (lines 196-204). -/
def toggleTask (id : Nat) (s : AppState) : AppState :=
  match s.tasks.find? (fun t => t.id == id) with
  | some _ => { s with tasks := toggleFirst id s.tasks }
  | none => s

/-- Function `deleteTask` (lines 206-211). -/
def deleteTask (id : Nat) (s : AppState) : AppState :=
  { s with tasks := s.tasks.filter (fun t => t.id != id) }

/-! ## Momentum (lines 250-257) -/

/-- A non-negative finite IEEE-754 binary64 number, written as `mant / 2 ^ scale`. -/
structure Binary64 where
  mant : Nat
  scale : Nat
deriving DecidableEq, Repr

/-- The rational value of a binary64 number. -/
def Binary64.toRat (x : Binary64) : ℚ := (x.mant : ℚ) / 2 ^ x.scale

/-- Search for the binary scale of the quotient `a / b`: starting from `s`, the least
scale at which `a * 2 ^ s / b` has 53 bits (is at least `2 ^ 52`), trying at most `fuel`
scales. -/
def scaleSearch (a b : Nat) : Nat → Nat → Nat
  | 0, s => s
  | fuel + 1, s => if 2 ^ 52 * b ≤ a * 2 ^ s then s else scaleSearch a b fuel (s + 1)

/-- IEEE-754 binary64 rounding (to nearest, ties to even) of the rational `a / b`, for
`0 < b` and `a / b < 2 ^ 53`: the quotient is scaled to a 53-bit significand and rounded to
an integer there.  The scale stops at 1074, the scale of the subnormal numbers; a quotient
too small to reach 53 bits there is rounded to a multiple of `2 ^ (-1074)`. -/
def roundBinary64 (a b : Nat) : Binary64 :=
  let s := scaleSearch a b 1074 0
  let q := a * 2 ^ s / b
  let r := a * 2 ^ s % b
  let m := if b < 2 * r ∨ (2 * r = b ∧ q % 2 = 1) then q + 1 else q
  { mant := m, scale := s }

/-- The JavaScript quotient `a / b` of two integers below `2 ^ 53`, `0 < b`, `a ≤ b`. -/
def divBinary64 (a b : Nat) : Binary64 := roundBinary64 a b

/-- The JavaScript product `x * c` of a binary64 number and an integer below `2 ^ 53`,
for a product below `2 ^ 53`. -/
def mulBinary64 (x : Binary64) (c : Nat) : Binary64 :=
  roundBinary64 (x.mant * c) (2 ^ x.scale)

/-- The function `Math.round` on a non-negative binary64 number: the nearest integer, the
larger one when two are equally near, that is `⌊x + 1/2⌋`. -/
def mathRound (x : Binary64) : Nat := (2 * x.mant + 2 ^ x.scale) / 2 ^ (x.scale + 1)

/-- The expression `total > 0 ? Math.round((completed / total) * 100) : 0` (line 253). -/
def percentage (completed total : Nat) : Nat :=
  if total > 0 then mathRound (mulBinary64 (divBinary64 completed total) 100) else 0

/-- The number `state.tasks.filter(t => t.completed).length`. -/
def completedCount (s : AppState) : Nat := (s.tasks.filter (fun t => t.completed)).length

/-- Function `updateMomentum` (lines 250-257): the value of `percentage`, which the
function writes into the momentum label and the width of the momentum bar. -/
def updateMomentum (s : AppState) : Nat :=
  let total := s.tasks.length
  let completed := (s.tasks.filter (fun t => t.completed)).length
  percentage completed total

/-- The quotient `a / b` rounded to the nearest integer in exact arithmetic, halves
rounded up: `⌊a / b + 1/2⌋`. -/
def roundHalfUp (a b : Nat) : Nat := (2 * a + b) / (2 * b)

/-- A list of `n` tasks with ids `0 .. n - 1` of which the first `k` are completed. -/
def sampleTasks (k n : Nat) : List Task :=
  (List.range n).map
    (fun i => { id := i, text := "task", completed := decide (i < k), createdAt := "" })

/-! ## Statistics (lines 411-421) -/

/-- A JavaScript object used as a table of counters: its own properties in creation
order. -/
abbrev Counts := List (String × Nat)

/-- The property read `categories[k]`; `none` stands for `undefined`. -/
def getCount (categories : Counts) (k : String) : Option Nat :=
  match categories with
  | [] => none
  | (k0, v0) :: rest => if k0 = k then some v0 else getCount rest k

/-- The assignment `categories[k] = v`: an existing property is overwritten in place, a
new one is added after the others. -/
def setCount (categories : Counts) (k : String) (v : Nat) : Counts :=
  match categories with
  | [] => [(k, v)]
  | (k0, v0) :: rest => if k0 = k then (k0, v) :: rest else (k0, v0) :: setCount rest k v

/-- The condition `log.text && log.text.trim()`: both strings are non-empty. -/
def hasText (log : HourLog) : Bool :=
  decide (log.text ≠ "") && decide (jsTrim log.text ≠ "")

/-- The body of the `forEach` callback of `calculateStats` (lines 415-417);
`undefined || 0` is `0`. -/
def statsStep (categories : Counts) (log : HourLog) : Counts :=
  if hasText log then
    setCount categories log.category ((getCount categories log.category).getD 0 + 1)
  else categories

/-- Function `calculateStats` (lines 411-421); `Object.values(state.logs)` lists the
values of the own properties of `state.logs`. -/
def calculateStats (s : AppState) : Counts :=
  (s.logs.map (fun e => e.2)).foldl statsStep
    [("revision", 0), ("break", 0), ("routine", 0), ("general", 0)]

/-- The total the table holds for a category, `0` for a missing property. -/
def total (c : Counts) (k : String) : Nat := (getCount c k).getD 0

/-- The four categories of the `select` element of an hour (lines 283-286). -/
def categoryNames : List String := ["general", "revision", "break", "routine"]

/-- A slot whose text is non-empty after trimming. -/
def nonBlank (log : HourLog) : Bool := decide (jsTrim log.text ≠ "")

/-! ## Weekly best day (lines 479-514) -/

/-- The array `days` of `renderWeekly` (line 480), Sunday first. -/
def dayNames : List String := ["Sun", "Mon", "Tue", "Wed", "Thu", "Fri", "Sat"]

/-- The object `bestDay` of `renderWeekly`. -/
structure BestDay where
  day : String
  hours : Nat
deriving DecidableEq, Repr

/-- The update of `bestDay` in one round of the loop (lines 511-513), for the day name
`days[i]` and the day's `revisionHours`. -/
def bestDayStep (bestDay : BestDay) (day : String) (revisionHours : Nat) : BestDay :=
  if revisionHours > bestDay.hours then { day := day, hours := revisionHours } else bestDay

/-- The scan over a list of day names and the revision hours of those days, from a given
value of `bestDay`. -/
def bestDayFrom (bestDay : BestDay) (days : List String) (series : List Nat) : BestDay :=
  (days.zip series).foldl (fun best p => bestDayStep best p.1 p.2) bestDay

/-- The value of `bestDay` after the loop of `renderWeekly` (lines 487-514), where
`series` lists the `revisionHours` of the seven days of the week in loop order. -/
def renderWeeklyBestDay (series : List Nat) : BestDay :=
  bestDayFrom { day := "", hours := 0 } dayNames series

/-! ## Hour logs (lines 294-316) -/

/-- The property read `state.logs[hour]`; `none` stands for `undefined`. -/
def getLog (logs : List (Nat × HourLog)) (hour : Nat) : Option HourLog :=
  match logs with
  | [] => none
  | (k, log) :: rest => if k = hour then some log else getLog rest hour

/-- Writing to an existing property `hour` of `state.logs`: the value is replaced where the
property stands. -/
def replaceLog (logs : List (Nat × HourLog)) (hour : Nat) (v : HourLog) :
    List (Nat × HourLog) :=
  match logs with
  | [] => []
  | (k, log) :: rest =>
    if k = hour then (k, v) :: rest else (k, log) :: replaceLog rest hour v

/-- Creating the property `hour` of `state.logs`: integer keys are enumerated in ascending
order, so the new property comes before the first larger key. -/
def insertLog (logs : List (Nat × HourLog)) (hour : Nat) (v : HourLog) :
    List (Nat × HourLog) :=
  match logs with
  | [] => [(hour, v)]
  | (k, log) :: rest =>
    if hour < k then (hour, v) :: (k, log) :: rest else (k, log) :: insertLog rest hour v

/-- The assignment `state.logs[hour] = v`. -/
def setLog (logs : List (Nat × HourLog)) (hour : Nat) (v : HourLog) : List (Nat × HourLog) :=
  if (getLog logs hour).isSome then replaceLog logs hour v else insertLog logs hour v

/-- The statement `if (!state.logs[hour]) state.logs[hour] = { text: '', category:
'general' }` that opens both update functions (a slot is an object, hence truthy). -/
def ensureLog (hour : Nat) (s : AppState) : AppState :=
  if (getLog s.logs hour).isNone then
    { s with logs := setLog s.logs hour { text := "", category := "general" } }
  else s

/-- Function `updateLog` (lines 294-300); the assignment to `state.logs[hour].text`
changes the slot object in place. -/
def updateLog (hour : Nat) (text : String) (s : AppState) : AppState :=
  let s := ensureLog hour s
  match getLog s.logs hour with
  | some log => { s with logs := setLog s.logs hour { log with text := text } }
  | none => s

/-- Function `updateLogCategory` (lines 302-316); the assignment to
`state.logs[hour].category` changes the slot object in place. -/
def updateLogCategory (hour : Nat) (category : String) (s : AppState) : AppState :=
  let s := ensureLog hour s
  match getLog s.logs hour with
  | some log => { s with logs := setLog s.logs hour { log with category := category } }
  | none => s

/-! ## Basic facts about the timer operations -/

theorem clearInterval_eq (h : Option Nat) (s : AppState) :
    clearInterval h s = { s with liveIntervals := clearedHandles h s.liveIntervals } := by
  cases h <;> rfl

theorem setTimerMode_eq (mode : String) (s : AppState) :
    setTimerMode mode s =
      { s with
        timer := { minutes := if mode = "work" then 25 else 5, seconds := 0,
                   isActive := false, mode := mode, interval := s.timer.interval },
        liveIntervals := clearedHandles s.timer.interval s.liveIntervals,
        timerDisplay := pad2 (if mode = "work" then 25 else 5) ++ ":" ++ pad2 0,
        startBtnText := "Start", startBtnRunning := false } := by
  simp only [setTimerMode, clearInterval_eq, showStart, updateTimerDisplay]

theorem resetTimer_eq (s : AppState) :
    resetTimer s =
      { s with
        timer := { minutes := if s.timer.mode = "work" then 25 else 5, seconds := 0,
                   isActive := false, mode := s.timer.mode, interval := s.timer.interval },
        liveIntervals := clearedHandles s.timer.interval s.liveIntervals,
        timerDisplay := pad2 (if s.timer.mode = "work" then 25 else 5) ++ ":" ++ pad2 0,
        startBtnText := "Start", startBtnRunning := false } := by
  simp only [resetTimer, clearInterval_eq, showStart, updateTimerDisplay]

theorem completeTimer_eq (s : AppState) :
    completeTimer s =
      { s with
        timer := { minutes := if s.timer.mode = "work" then 5 else 25, seconds := 0,
                   isActive := false,
                   mode := if s.timer.mode = "work" then "break" else "work",
                   interval := s.timer.interval },
        sessions := if s.timer.mode = "work" then s.sessions + 1 else s.sessions,
        sessionDisplay := if s.timer.mode = "work" then
            "Sessions today: " ++ toString (s.sessions + 1) else s.sessionDisplay,
        liveIntervals := clearedHandles s.timer.interval
            (clearedHandles s.timer.interval s.liveIntervals),
        timerDisplay := pad2 (if s.timer.mode = "work" then 5 else 25) ++ ":" ++ pad2 0,
        startBtnText := "Start", startBtnRunning := false } := by
  by_cases hm : s.timer.mode = "work"
  · simp only [completeTimer, setTimerMode_eq, clearInterval_eq, showStart,
      updateSessionDisplay, hm, if_true]
    simp
  · simp only [completeTimer, setTimerMode_eq, clearInterval_eq, showStart,
      updateSessionDisplay, hm, if_false]
    simp

theorem updateTimerDisplay_setTimerMode (mode : String) (s : AppState) :
    updateTimerDisplay (setTimerMode mode s) = setTimerMode mode s := by
  simp only [setTimerMode, updateTimerDisplay]

theorem updateTimerDisplay_completeTimer (s : AppState) :
    updateTimerDisplay (completeTimer s) = completeTimer s := by
  simp only [completeTimer, updateTimerDisplay_setTimerMode]

/-- On the completing branch `tickTimer` is `completeTimer` (the display is already up to
date when `updateTimerDisplay` runs a second time). -/
theorem tickTimer_of_completes (s : AppState) (h : tickCompletes s = true) :
    tickTimer s = completeTimer s := by
  simp only [tickCompletes, Bool.and_eq_true, Bool.not_eq_true', decide_eq_false_iff_not] at h
  simp only [tickTimer, h.1, h.2, if_false, updateTimerDisplay_completeTimer]

/-- On the branch `seconds > 0` only `seconds` and the display change. -/
theorem tickTimer_of_seconds_pos (s : AppState) (h : s.timer.seconds > 0) :
    tickTimer s =
      { s with timer := { s.timer with seconds := s.timer.seconds - 1 },
               timerDisplay := pad2 s.timer.minutes ++ ":" ++ pad2 (s.timer.seconds - 1) } := by
  simp only [tickTimer, h, if_true, updateTimerDisplay]

/-- On the branch `minutes > 0` (with `seconds > 0` false) a minute is borrowed. -/
theorem tickTimer_of_minutes_pos (s : AppState) (h : ¬ s.timer.seconds > 0)
    (hm : s.timer.minutes > 0) :
    tickTimer s =
      { s with timer := { s.timer with minutes := s.timer.minutes - 1, seconds := 59 },
               timerDisplay := pad2 (s.timer.minutes - 1) ++ ":" ++ pad2 59 } := by
  simp only [tickTimer, h, hm, if_true, if_false, updateTimerDisplay]

/-- A tick with time left on a non-negative countdown does not complete, takes exactly one
second off, and leaves mode, activity flag and session count alone. -/
theorem tickTimer_running (s : AppState) (hsec : 0 ≤ s.timer.seconds)
    (hmin : 0 ≤ s.timer.minutes) (h : 0 < remaining s) :
    tickCompletes s = false ∧
    remaining (tickTimer s) = remaining s - 1 ∧
    0 ≤ (tickTimer s).timer.seconds ∧ 0 ≤ (tickTimer s).timer.minutes ∧
    (tickTimer s).timer.mode = s.timer.mode ∧
    (tickTimer s).timer.isActive = s.timer.isActive ∧
    (tickTimer s).sessions = s.sessions := by
  unfold remaining at h
  by_cases hs : s.timer.seconds > 0
  · rw [tickTimer_of_seconds_pos s hs]
    refine ⟨?_, ?_, ?_, ?_, rfl, rfl, rfl⟩
    · simp [tickCompletes, hs]
    · simp only [remaining]; omega
    · show 0 ≤ s.timer.seconds - 1
      omega
    · exact hmin
  · have hm : s.timer.minutes > 0 := by omega
    rw [tickTimer_of_minutes_pos s hs hm]
    refine ⟨?_, ?_, ?_, ?_, rfl, rfl, rfl⟩
    · simp [tickCompletes, hm]
    · simp only [remaining]; omega
    · show (0 : Int) ≤ 59
      omega
    · show 0 ≤ s.timer.minutes - 1
      omega

theorem tickTimerN_succ (n : Nat) (s : AppState) :
    tickTimerN (n + 1) s = tickTimer (tickTimerN n s) := by
  induction n generalizing s with
  | zero => rfl
  | succ k ih =>
    show tickTimerN (k + 1) (tickTimer s) = tickTimer (tickTimerN k (tickTimer s))
    exact ih (tickTimer s)

theorem completionsIn_succ (n : Nat) (s : AppState) :
    completionsIn (n + 1) s =
      completionsIn n s + (if tickCompletes (tickTimerN n s) then 1 else 0) := by
  induction n generalizing s with
  | zero => simp [completionsIn, tickTimerN]
  | succ k ih =>
    show (if tickCompletes s then 1 else 0) + completionsIn (k + 1) (tickTimer s) = _
    rw [ih (tickTimer s)]
    simp only [completionsIn, tickTimerN]
    omega

/-- Counting a non-negative countdown down: after as many ticks as there are seconds left
the countdown stands at 00:00, and `completeTimer` has not been called. -/
theorem tickTimerN_countdown (n : Nat) (s : AppState) (hsec : 0 ≤ s.timer.seconds)
    (hmin : 0 ≤ s.timer.minutes) (h : remaining s = n) :
    completionsIn n s = 0 ∧
    (tickTimerN n s).timer.minutes = 0 ∧ (tickTimerN n s).timer.seconds = 0 ∧
    (tickTimerN n s).timer.mode = s.timer.mode ∧
    (tickTimerN n s).timer.isActive = s.timer.isActive ∧
    (tickTimerN n s).sessions = s.sessions := by
  induction n generalizing s with
  | zero =>
    unfold remaining at h
    refine ⟨rfl, ?_, ?_, rfl, rfl, rfl⟩
    · show s.timer.minutes = 0
      omega
    · show s.timer.seconds = 0
      omega
  | succ k ih =>
    obtain ⟨hc, hr, hs1, hm1, hmode, hact, hsess⟩ :=
      tickTimer_running s hsec hmin (by omega)
    obtain ⟨ic, imin, isec, imode, iact, isess⟩ :=
      ih (tickTimer s) hs1 hm1 (by omega)
    refine ⟨?_, imin, isec, imode.trans hmode, iact.trans hact, isess.trans hsess⟩
    show (if tickCompletes s then 1 else 0) + completionsIn k (tickTimer s) = 0
    rw [hc, ic]
    rfl

/-! ## The scheduler invariant -/

theorem clearedHandles_of_inv (s : AppState) (hinv : SchedulerInv s) :
    clearedHandles s.timer.interval s.liveIntervals = [] := by
  cases hact : s.timer.isActive with
  | false =>
    rw [hinv.2 hact]
    cases s.timer.interval <;> rfl
  | true =>
    obtain ⟨h, hi, hl⟩ := hinv.1 hact
    rw [hi, hl]
    simp [clearedHandles]

theorem clearedHandles_nil (h : Option Nat) : clearedHandles h [] = [] := by
  cases h <;> rfl

theorem toggleTimer_inactive (handle : Nat) (s : AppState) (hact : s.timer.isActive = false) :
    toggleTimer handle s =
      { s with timer := { s.timer with isActive := true, interval := some handle },
               liveIntervals := handle :: s.liveIntervals,
               startBtnText := "Pause", startBtnRunning := true } := by
  simp only [toggleTimer, hact, Bool.not_false, if_true, setInterval]

theorem toggleTimer_active (handle : Nat) (s : AppState) (hact : s.timer.isActive = true) :
    toggleTimer handle s =
      { s with timer := { s.timer with isActive := false },
               liveIntervals := clearedHandles s.timer.interval s.liveIntervals,
               startBtnText := "Start", startBtnRunning := false } := by
  simp only [toggleTimer, hact, Bool.not_true, showStart, clearInterval_eq]
  rfl

theorem schedulerInv_toggleTimer (handle : Nat) (s : AppState) (hinv : SchedulerInv s) :
    SchedulerInv (toggleTimer handle s) := by
  cases hact : s.timer.isActive with
  | false =>
    rw [toggleTimer_inactive handle s hact]
    refine ⟨fun _ => ⟨handle, rfl, ?_⟩, fun h => ?_⟩
    · show handle :: s.liveIntervals = [handle]
      rw [hinv.2 hact]
    · exact absurd h (by simp)
  | true =>
    rw [toggleTimer_active handle s hact]
    refine ⟨fun h => absurd h (by simp), fun _ => ?_⟩
    exact clearedHandles_of_inv s hinv

theorem schedulerInv_resetTimer (s : AppState) (hinv : SchedulerInv s) :
    SchedulerInv (resetTimer s) := by
  rw [resetTimer_eq]
  refine ⟨fun h => absurd h (by simp), fun _ => ?_⟩
  exact clearedHandles_of_inv s hinv

theorem schedulerInv_setTimerMode (mode : String) (s : AppState) (hinv : SchedulerInv s) :
    SchedulerInv (setTimerMode mode s) := by
  rw [setTimerMode_eq]
  refine ⟨fun h => absurd h (by simp), fun _ => ?_⟩
  exact clearedHandles_of_inv s hinv

theorem schedulerInv_completeTimer (s : AppState) (hinv : SchedulerInv s) :
    SchedulerInv (completeTimer s) := by
  rw [completeTimer_eq]
  refine ⟨fun h => absurd h (by simp), fun _ => ?_⟩
  show clearedHandles s.timer.interval (clearedHandles s.timer.interval s.liveIntervals) = []
  rw [clearedHandles_of_inv s hinv, clearedHandles_nil]

theorem schedulerInv_tickTimer (s : AppState) (hinv : SchedulerInv s) :
    SchedulerInv (tickTimer s) := by
  by_cases hs : s.timer.seconds > 0
  · rw [tickTimer_of_seconds_pos s hs]
    exact hinv
  · by_cases hm : s.timer.minutes > 0
    · rw [tickTimer_of_minutes_pos s hs hm]
      exact hinv
    · rw [tickTimer_of_completes s (by simp [tickCompletes, hs, hm])]
      exact schedulerInv_completeTimer s hinv

theorem schedulerInv_of_reachable (s : AppState) (h : Reachable s) : SchedulerInv s := by
  induction h with
  | init s hact hint hlive => exact ⟨fun h => absurd (hact ▸ h) (by simp), fun _ => hlive⟩
  | toggle s handle _ ih => exact schedulerInv_toggleTimer handle s ih
  | reset s _ ih => exact schedulerInv_resetTimer s ih
  | setMode s mode _ ih => exact schedulerInv_setTimerMode mode s ih
  | complete s _ ih => exact schedulerInv_completeTimer s ih
  | tick s _ _ ih => exact schedulerInv_tickTimer s ih

/-! ## Facts about the task operations -/

theorem taskIds_toggleFirst (id : Nat) (tasks : List Task) :
    taskIds (toggleFirst id tasks) = taskIds tasks := by
  induction tasks with
  | nil => rfl
  | cons t ts ih =>
    by_cases h : t.id = id
    · simp [toggleFirst, taskIds, h]
    · simp only [toggleFirst, h, if_false, taskIds, List.map_cons] at ih ⊢
      rw [ih]

theorem taskIds_toggleTask (id : Nat) (s : AppState) :
    taskIds (toggleTask id s).tasks = taskIds s.tasks := by
  unfold toggleTask
  split
  · exact taskIds_toggleFirst id s.tasks
  · rfl

theorem filter_ne_of_not_mem (id : Nat) (tasks : List Task) (h : id ∉ taskIds tasks) :
    tasks.filter (fun t => t.id != id) = tasks := by
  rw [List.filter_eq_self]
  intro t ht
  have : t.id ≠ id := fun e => h (e ▸ List.mem_map_of_mem (fun t => t.id) ht)
  simpa using this

/-! ## Facts about the statistics -/

theorem hasText_eq_nonBlank (log : HourLog) : hasText log = nonBlank log := by
  unfold hasText nonBlank
  by_cases h : log.text = ""
  · have ht : jsTrim "" = "" := rfl
    simp [h, ht]
  · simp [h]

theorem getCount_setCount (c : Counts) (k k1 : String) (v : Nat) :
    getCount (setCount c k v) k1 = if k = k1 then some v else getCount c k1 := by
  induction c with
  | nil => simp [setCount, getCount]
  | cons p rest ih =>
    obtain ⟨k0, v0⟩ := p
    by_cases h0 : k0 = k
    · subst h0
      by_cases h1 : k0 = k1 <;> simp [setCount, getCount, h1]
    · by_cases h1 : k0 = k1
      · subst h1
        have : ¬ k = k0 := fun e => h0 e.symm
        simp [setCount, getCount, h0, this]
      · simp [setCount, getCount, h0, h1, ih]

theorem keys_setCount (c : Counts) (k : String) (v : Nat)
    (h : k ∈ c.map (fun p => p.1)) :
    (setCount c k v).map (fun p => p.1) = c.map (fun p => p.1) := by
  induction c with
  | nil => simp at h
  | cons p rest ih =>
    obtain ⟨k0, v0⟩ := p
    by_cases h0 : k0 = k
    · simp [setCount, h0]
    · have hrest : k ∈ rest.map (fun p => p.1) := by
        simp only [List.map_cons, List.mem_cons] at h
        rcases h with h | h
        · exact absurd h.symm h0
        · exact h
      simp [setCount, h0, ih hrest]

theorem total_statsStep (c : Counts) (log : HourLog) (k : String) :
    total (statsStep c log) k =
      total c k + (if log.category = k ∧ nonBlank log = true then 1 else 0) := by
  unfold statsStep total
  rw [hasText_eq_nonBlank]
  by_cases hb : nonBlank log = true
  · by_cases hk : log.category = k
    · simp [hb, hk, getCount_setCount]
    · simp [hb, hk, getCount_setCount]
  · simp [hb]

theorem total_foldl (logs : List HourLog) (c : Counts) (k : String) :
    total (logs.foldl statsStep c) k =
      total c k + logs.countP (fun l => decide (l.category = k) && nonBlank l) := by
  induction logs generalizing c with
  | nil => simp
  | cons l rest ih =>
    rw [List.foldl_cons, ih, total_statsStep, List.countP_cons]
    by_cases hk : l.category = k <;> by_cases hb : nonBlank l = true <;> simp [hk, hb]
    omega

theorem keys_foldl (logs : List HourLog) (c : Counts)
    (h : ∀ l ∈ logs, l.category ∈ c.map (fun p => p.1)) :
    (logs.foldl statsStep c).map (fun p => p.1) = c.map (fun p => p.1) := by
  induction logs generalizing c with
  | nil => rfl
  | cons l rest ih =>
    have hl : l.category ∈ c.map (fun p => p.1) := h l (List.mem_cons_self _ _)
    have hstep : (statsStep c l).map (fun p => p.1) = c.map (fun p => p.1) := by
      unfold statsStep
      split
      · exact keys_setCount c l.category _ hl
      · rfl
    rw [List.foldl_cons, ih (statsStep c l), hstep]
    intro l1 hl1
    rw [hstep]
    exact h l1 (List.mem_cons_of_mem _ hl1)

theorem getCount_of_mem_keys (c : Counts) (k : String) (h : k ∈ c.map (fun p => p.1)) :
    getCount c k = some (total c k) := by
  induction c with
  | nil => simp at h
  | cons p rest ih =>
    obtain ⟨k0, v0⟩ := p
    by_cases h0 : k0 = k
    · simp [getCount, total, h0]
    · have hrest : k ∈ rest.map (fun p => p.1) := by
        simp only [List.map_cons, List.mem_cons] at h
        rcases h with h | h
        · exact absurd h.symm h0
        · exact h
      have hstep : getCount ((k0, v0) :: rest) k = getCount rest k := by
        simp [getCount, h0]
      unfold total
      rw [hstep]
      exact ih hrest

theorem statsStep_of_blank (c : Counts) (log : HourLog) (h : nonBlank log = false) :
    statsStep c log = c := by
  simp [statsStep, hasText_eq_nonBlank, h]

theorem foldl_statsStep_filter (logs : List HourLog) (c : Counts) :
    (logs.filter nonBlank).foldl statsStep c = logs.foldl statsStep c := by
  induction logs generalizing c with
  | nil => rfl
  | cons l rest ih =>
    cases hb : nonBlank l with
    | false => simp [List.filter_cons, hb, statsStep_of_blank c l hb, ih]
    | true => simp [List.filter_cons, hb, ih]

theorem countP_categories (logs : List HourLog)
    (h : ∀ l ∈ logs, l.category ∈ categoryNames) :
    logs.countP (fun l => decide (l.category = "general") && nonBlank l) +
      logs.countP (fun l => decide (l.category = "revision") && nonBlank l) +
      logs.countP (fun l => decide (l.category = "break") && nonBlank l) +
      logs.countP (fun l => decide (l.category = "routine") && nonBlank l) =
    logs.countP nonBlank := by
  induction logs with
  | nil => rfl
  | cons l rest ih =>
    have hrest := ih (fun l1 hl1 => h l1 (List.mem_cons_of_mem _ hl1))
    have hl : l.category ∈ categoryNames := h l (List.mem_cons_self _ _)
    simp only [categoryNames, List.mem_cons, List.mem_singleton, List.not_mem_nil,
      or_false] at hl
    simp only [List.countP_cons]
    cases hb : nonBlank l with
    | false => simpa using hrest
    | true =>
      rcases hl with hl | hl | hl | hl <;> simp [hl] <;> omega

/-! ## Facts about the weekly scan -/

/-- What the scan returns: either the starting value, when no day has more hours than it,
or the first day that reaches the largest number of hours of the series. -/
theorem bestDayFrom_char (series : List Nat) :
    ∀ (days : List String) (b0 : BestDay), days.length = series.length →
      (bestDayFrom b0 days series = b0 ∧ ∀ h ∈ series, h ≤ b0.hours) ∨
      (∃ (i : Nat) (d : String) (h : Nat),
        days[i]? = some d ∧ series[i]? = some h ∧
        bestDayFrom b0 days series = { day := d, hours := h } ∧ b0.hours < h ∧
        (∀ j, j < i → ∀ h1, series[j]? = some h1 → h1 < h) ∧
        ∀ h1 ∈ series, h1 ≤ h) := by
  induction series with
  | nil =>
    intro days b0 _
    left
    exact ⟨by simp [bestDayFrom], by simp⟩
  | cons a rest ih =>
    intro days b0 hlen
    cases days with
    | nil => simp at hlen
    | cons d0 ds =>
      have hlen1 : ds.length = rest.length := by simpa using hlen
      have hunfold : bestDayFrom b0 (d0 :: ds) (a :: rest) =
          bestDayFrom (bestDayStep b0 d0 a) ds rest := rfl
      rw [hunfold]
      by_cases hgt : a > b0.hours
      · have hstep : bestDayStep b0 d0 a = { day := d0, hours := a } := by
          simp [bestDayStep, hgt]
        rw [hstep]
        right
        rcases ih ds { day := d0, hours := a } hlen1 with ⟨hr, hall⟩ | ⟨i, d, h, hd, hs, hr, hlt, hpre, hall⟩
        · refine ⟨0, d0, a, by simp, by simp, hr, hgt, ?_, ?_⟩
          · intro j hj
            omega
          · intro h1 hh1
            rcases List.mem_cons.mp hh1 with e | e
            · omega
            · exact hall h1 e
        · refine ⟨i + 1, d, h, by simpa using hd, by simpa using hs, hr, ?_, ?_, ?_⟩
          · exact Nat.lt_trans hgt hlt
          · intro j hj h1 hj1
            cases j with
            | zero =>
              have : a = h1 := by simpa using hj1
              rw [← this]
              exact hlt
            | succ k =>
              exact hpre k (by omega) h1 (by simpa using hj1)
          · intro h1 hh1
            rcases List.mem_cons.mp hh1 with e | e
            · rw [e]
              exact Nat.le_of_lt hlt
            · exact hall h1 e
      · have hstep : bestDayStep b0 d0 a = b0 := by
          simp [bestDayStep, hgt]
        rw [hstep]
        rcases ih ds b0 hlen1 with ⟨hr, hall⟩ | ⟨i, d, h, hd, hs, hr, hlt, hpre, hall⟩
        · left
          refine ⟨hr, ?_⟩
          intro h1 hh1
          rcases List.mem_cons.mp hh1 with e | e
          · omega
          · exact hall h1 e
        · right
          refine ⟨i + 1, d, h, by simpa using hd, by simpa using hs, hr, hlt, ?_, ?_⟩
          · intro j hj h1 hj1
            cases j with
            | zero =>
              have : a = h1 := by simpa using hj1
              omega
            | succ k =>
              exact hpre k (by omega) h1 (by simpa using hj1)
          · intro h1 hh1
            rcases List.mem_cons.mp hh1 with e | e
            · omega
            · exact hall h1 e

/-! ## Facts about binary64 rounding and the momentum percentage -/

theorem scaleSearch_le (a b : Nat) (fuel s : Nat) : scaleSearch a b fuel s ≤ s + fuel := by
  induction fuel generalizing s with
  | zero => simp [scaleSearch]
  | succ f ih =>
    unfold scaleSearch
    split
    · omega
    · have := ih (s + 1)
      omega

theorem scaleSearch_reaches (a b : Nat) (fuel s t : Nat) (hst : s ≤ t)
    (ht : t ≤ s + fuel) (h : 2 ^ 52 * b ≤ a * 2 ^ t) :
    2 ^ 52 * b ≤ a * 2 ^ scaleSearch a b fuel s := by
  induction fuel generalizing s with
  | zero =>
    have e : t = s := by omega
    rw [e] at h
    exact h
  | succ f ih =>
    unfold scaleSearch
    split
    · assumption
    · rename_i hc
      have hne : s ≠ t := by
        intro e
        rw [e] at hc
        exact hc h
      exact ih (s + 1) (by omega) (by omega)

theorem roundBinary64_near (a b : Nat) (hb : 0 < b) :
    2 * (roundBinary64 a b).mant * b ≤ 2 * (a * 2 ^ (roundBinary64 a b).scale) + b ∧
    2 * (a * 2 ^ (roundBinary64 a b).scale) ≤ 2 * (roundBinary64 a b).mant * b + b := by
  simp only [roundBinary64]
  generalize a * 2 ^ scaleSearch a b 1074 0 = N
  have hdm : b * (N / b) + N % b = N := Nat.div_add_mod N b
  have hr : N % b < b := Nat.mod_lt N hb
  generalize N / b = q at *
  generalize N % b = r at *
  split
  · rename_i hc
    constructor <;> rcases hc with hc | ⟨hc, -⟩ <;> nlinarith
  · rename_i hc
    have h2 : 2 * r ≤ b := by
      by_contra hlt
      exact hc (Or.inl (by omega))
    constructor <;> nlinarith

theorem roundBinary64_le (a b c : Nat) (hb : 0 < b) (h : a ≤ c * b) :
    (roundBinary64 a b).mant ≤ c * 2 ^ (roundBinary64 a b).scale := by
  simp only [roundBinary64]
  generalize scaleSearch a b 1074 0 = s
  have hN : a * 2 ^ s ≤ (c * 2 ^ s) * b := by nlinarith [Nat.zero_le (2 ^ s)]
  generalize a * 2 ^ s = N at *
  generalize c * 2 ^ s = M at *
  have hdm : b * (N / b) + N % b = N := Nat.div_add_mod N b
  have hq : N / b ≤ M := Nat.div_le_of_le_mul (by rw [Nat.mul_comm]; exact hN)
  generalize N / b = q at *
  generalize N % b = r at *
  split
  · rename_i hc
    have hrpos : 0 < r := by
      rcases hc with hc | ⟨hc, -⟩ <;> omega
    by_contra hlt
    have hqM : q = M := by omega
    subst hqM
    nlinarith
  · exact hq

theorem roundBinary64_mant_ge (a b : Nat) (hb : 0 < b)
    (h : 2 ^ 52 * b ≤ a * 2 ^ (roundBinary64 a b).scale) :
    2 ^ 52 ≤ (roundBinary64 a b).mant := by
  have h1 := (roundBinary64_near a b hb).2
  by_contra hlt
  have hm : (roundBinary64 a b).mant + 1 ≤ 2 ^ 52 := by omega
  have : 2 * ((roundBinary64 a b).mant + 1) * b ≤ 2 * 2 ^ 52 * b :=
    Nat.mul_le_mul_right b (Nat.mul_le_mul_left 2 hm)
  nlinarith

/-- One rounding changes a quotient by a factor between `1 - 2^(-53)` and `1 + 2^(-53)`,
when the scale search has reached 53 bits. -/
theorem roundBinary64_rel (a b : Nat) (hb : 0 < b)
    (h : 2 ^ 52 * b ≤ a * 2 ^ (roundBinary64 a b).scale) :
    ((a : ℚ) / b) * (1 - 1 / 2 ^ 53) ≤ (roundBinary64 a b).toRat ∧
    (roundBinary64 a b).toRat ≤ ((a : ℚ) / b) * (1 + 1 / 2 ^ 53) := by
  obtain ⟨h1, h2⟩ := roundBinary64_near a b hb
  unfold Binary64.toRat
  generalize (roundBinary64 a b).mant = m at *
  generalize (roundBinary64 a b).scale = s at *
  have hP : (0 : ℚ) < 2 ^ s := by positivity
  have hB : (0 : ℚ) < b := by exact_mod_cast hb
  have c1 : 2 * (m : ℚ) * b ≤ 2 * (a * 2 ^ s) + b := by exact_mod_cast h1
  have c2 : 2 * ((a : ℚ) * 2 ^ s) ≤ 2 * m * b + b := by exact_mod_cast h2
  have c3 : (2 : ℚ) ^ 52 * b ≤ a * 2 ^ s := by exact_mod_cast h
  constructor
  · rw [le_div_iff₀ hP, div_mul_eq_mul_div, div_mul_eq_mul_div, div_le_iff₀ hB]
    nlinarith
  · rw [div_le_iff₀ hP, div_mul_eq_mul_div, div_mul_eq_mul_div, le_div_iff₀ hB]
    nlinarith

theorem divBinary64_scale_reached (k n : Nat) (hk : 0 < k) (hn : n < 2 ^ 32) :
    2 ^ 52 * n ≤ k * 2 ^ (divBinary64 k n).scale := by
  apply scaleSearch_reaches k n 1074 0 84 (by decide) (by decide)
  have h1 : 2 ^ 52 * n ≤ 2 ^ 52 * 2 ^ 32 := Nat.mul_le_mul_left _ (Nat.le_of_lt hn)
  have h2 : 1 * 2 ^ 84 ≤ k * 2 ^ 84 := Nat.mul_le_mul_right _ hk
  omega

theorem mulBinary64_scale_reached (x : Binary64) (hm : 2 ^ 52 ≤ x.mant)
    (hs : x.scale ≤ 1074) :
    2 ^ 52 * 2 ^ x.scale ≤ (x.mant * 100) * 2 ^ (mulBinary64 x 100).scale := by
  apply scaleSearch_reaches (x.mant * 100) (2 ^ x.scale) 1074 0 x.scale (by omega) (by omega)
  apply Nat.mul_le_mul_right
  omega

/-- The double-precision value of `(k / n) * 100` is within `2^(-44)` of `100 k / n`. -/
theorem product_close (k n : Nat) (hk : 0 < k) (hkn : k ≤ n) (hn : n < 2 ^ 32) :
    (100 * k : ℚ) / n - 1 / 2 ^ 44 ≤ (mulBinary64 (divBinary64 k n) 100).toRat ∧
    (mulBinary64 (divBinary64 k n) 100).toRat ≤ (100 * k : ℚ) / n + 1 / 2 ^ 44 := by
  have hn0 : 0 < n := by omega
  have hr := divBinary64_scale_reached k n hk hn
  have hmant := roundBinary64_mant_ge k n hn0 hr
  have hscale : (divBinary64 k n).scale ≤ 1074 := by
    have := scaleSearch_le k n 1074 0
    rw [Nat.zero_add] at this
    exact this
  obtain ⟨a1, a2⟩ := roundBinary64_rel k n hn0 hr
  have hr2 := mulBinary64_scale_reached (divBinary64 k n) hmant hscale
  obtain ⟨b1, b2⟩ := roundBinary64_rel ((divBinary64 k n).mant * 100)
    (2 ^ (divBinary64 k n).scale) (by positivity) hr2
  have hval : (((divBinary64 k n).mant * 100 : Nat) : ℚ) /
      ((2 ^ (divBinary64 k n).scale : Nat) : ℚ) = 100 * (divBinary64 k n).toRat := by
    unfold Binary64.toRat
    push_cast
    ring
  rw [hval] at b1 b2
  change _ ≤ (mulBinary64 (divBinary64 k n) 100).toRat at b1
  change (mulBinary64 (divBinary64 k n) 100).toRat ≤ _ at b2
  change _ ≤ (divBinary64 k n).toRat at a1
  change (divBinary64 k n).toRat ≤  _ at a2
  generalize (mulBinary64 (divBinary64 k n) 100).toRat = Y1 at *
  generalize (divBinary64 k n).toRat = X1 at *
  have hX0 : (0 : ℚ) ≤ (k : ℚ) / n := by positivity
  have hX1 : (k : ℚ) / n ≤ 1 := by
    rw [div_le_one (by exact_mod_cast hn0)]
    exact_mod_cast hkn
  have e : (100 * k : ℚ) / n = 100 * ((k : ℚ) / n) := by ring
  rw [e]
  generalize (k : ℚ) / n = X at *
  constructor <;> norm_num at * <;> linarith

theorem mathRound_eq (y : Binary64) (j : Nat) (h1 : (j : ℚ) ≤ y.toRat + 1 / 2)
    (h2 : y.toRat + 1 / 2 < j + 1) : mathRound y = j := by
  unfold Binary64.toRat at h1 h2
  have hP : (0 : ℚ) < 2 ^ y.scale := by positivity
  have e : (y.mant : ℚ) / 2 ^ y.scale + 1 / 2 = (2 * y.mant + 2 ^ y.scale) / (2 ^ (y.scale + 1)) := by
    rw [pow_succ]
    field_simp
    ring
  rw [e] at h1 h2
  have hP1 : (0 : ℚ) < 2 ^ (y.scale + 1) := by positivity
  rw [le_div_iff₀ hP1] at h1
  rw [div_lt_iff₀ hP1] at h2
  unfold mathRound
  apply Nat.div_eq_of_lt_le
  · exact_mod_cast h1
  · exact_mod_cast h2

theorem roundBinary64_zero (b : Nat) (hb : 0 < b) : (roundBinary64 0 b).mant = 0 := by
  have hb' : ¬ (0 = b) := by omega
  simp [roundBinary64, hb']

theorem mathRound_of_mant_zero (y : Binary64) (h : y.mant = 0) : mathRound y = 0 := by
  unfold mathRound
  rw [h]
  apply Nat.div_eq_of_lt
  rw [Nat.pow_succ]
  have : 0 < 2 ^ y.scale := Nat.two_pow_pos _
  omega

theorem percentage_zero (n : Nat) : percentage 0 n = 0 := by
  unfold percentage
  split
  · rename_i hn
    apply mathRound_of_mant_zero
    have h0 : (divBinary64 0 n).mant = 0 := roundBinary64_zero n hn
    unfold mulBinary64
    rw [h0, Nat.zero_mul]
    exact roundBinary64_zero _ (Nat.two_pow_pos _)
  · rfl

theorem percentage_le (k n : Nat) (hkn : k ≤ n) : percentage k n ≤ 100 := by
  unfold percentage
  split
  · rename_i hn
    have h1 : (divBinary64 k n).mant ≤ 1 * 2 ^ (divBinary64 k n).scale :=
      roundBinary64_le k n 1 hn (by omega)
    have h2 : (mulBinary64 (divBinary64 k n) 100).mant ≤
        100 * 2 ^ (mulBinary64 (divBinary64 k n) 100).scale :=
      roundBinary64_le _ _ 100 (Nat.two_pow_pos _) (by omega)
    generalize mulBinary64 (divBinary64 k n) 100 = y at h2
    unfold mathRound
    have hlt : (2 * y.mant + 2 ^ y.scale) / 2 ^ (y.scale + 1) < 101 := by
      rw [Nat.div_lt_iff_lt_mul (Nat.two_pow_pos _), Nat.pow_succ]
      have : 0 < 2 ^ y.scale := Nat.two_pow_pos _
      omega
    omega
  · omega

/-- The function `Math.round` in terms of the rational value: `⌊x + 1/2⌋`. -/
theorem mathRound_eq_floor (y : Binary64) : mathRound y = ⌊y.toRat + 1 / 2⌋₊ := by
  have h0 : (0 : ℚ) ≤ y.toRat + 1 / 2 := by
    unfold Binary64.toRat
    positivity
  exact mathRound_eq y _ (Nat.floor_le h0) (Nat.lt_floor_add_one _)

/-- The percentage against exact rounding: equal unless `100 k / n` is exactly halfway
between two integers; at such a half it is the half rounded up when the double-precision
product `(k / n) * 100` is not below `100 k / n`, and one less when it is below. -/
theorem percentage_exact (k n : Nat) (hkn : k ≤ n) (hn0 : 0 < n) (hn : n < 2 ^ 32) :
    ((200 * k + n) % (2 * n) ≠ 0 → percentage k n = roundHalfUp (100 * k) n) ∧
    ((200 * k + n) % (2 * n) = 0 →
      ((100 * k : ℚ) / n ≤ (mulBinary64 (divBinary64 k n) 100).toRat →
        percentage k n = roundHalfUp (100 * k) n) ∧
      ((mulBinary64 (divBinary64 k n) 100).toRat < (100 * k : ℚ) / n →
        percentage k n + 1 = roundHalfUp (100 * k) n)) := by
  have hE : roundHalfUp (100 * k) n = (200 * k + n) / (2 * n) := by
    unfold roundHalfUp
    congr 1
    omega
  rcases Nat.eq_zero_or_pos k with hk | hk
  · subst hk
    have hmod : (200 * 0 + n) % (2 * n) = n := by
      rw [Nat.mul_zero, Nat.zero_add]
      exact Nat.mod_eq_of_lt (by omega)
    have hdiv : (200 * 0 + n) / (2 * n) = 0 := Nat.div_eq_of_lt (by omega)
    refine ⟨fun _ => ?_, fun hhalf => ?_⟩
    · rw [percentage_zero, hE, hdiv]
    · rw [hmod] at hhalf
      omega
  · obtain ⟨c1, c2⟩ := product_close k n hk hkn hn
    have hp : percentage k n = mathRound (mulBinary64 (divBinary64 k n) 100) := by
      simp [percentage, hn0]
    rw [hp, hE]
    generalize mulBinary64 (divBinary64 k n) 100 = y at *
    have hdm : 2 * n * ((200 * k + n) / (2 * n)) + (200 * k + n) % (2 * n) = 200 * k + n :=
      Nat.div_add_mod _ _
    have hrem : (200 * k + n) % (2 * n) < 2 * n := Nat.mod_lt _ (by omega)
    generalize (200 * k + n) / (2 * n) = j at *
    generalize (200 * k + n) % (2 * n) = r at *
    have hN : (0 : ℚ) < n := by exact_mod_cast hn0
    have hN2 : (n : ℚ) ≤ 2 ^ 32 := by exact_mod_cast (Nat.le_of_lt hn)
    obtain ⟨w, hwdef⟩ : ∃ w : ℚ, w = 1 / n := ⟨_, rfl⟩
    have hw : (1 : ℚ) / 2 ^ 32 ≤ w := by
      rw [hwdef]
      exact one_div_le_one_div_of_le hN hN2
    have hwn : w * n = 1 := by
      rw [hwdef]
      field_simp
    have hq : (100 * k : ℚ) / n = j + r * w / 2 - 1 / 2 := by
      have h200 : (2 * (n : ℚ) * j + r) = 200 * k + n := by exact_mod_cast hdm
      have h100 : (100 * k : ℚ) = (2 * n * j + r - n) / 2 := by linarith
      rw [h100, hwdef]
      field_simp
      ring
    rw [hq] at c1 c2 ⊢
    constructor
    · intro hr0
      apply mathRound_eq
      · have h1 : (1 : ℚ) ≤ r := by exact_mod_cast Nat.pos_of_ne_zero hr0
        have h2 : w ≤ r * w := by nlinarith
        norm_num at hw c1 ⊢
        linarith
      · have h1 : (r : ℚ) + 1 ≤ 2 * n := by exact_mod_cast hrem
        have h2 : r * w + w ≤ 2 := by nlinarith
        norm_num at hw c2 ⊢
        linarith
    · intro hr0
      subst hr0
      have hj : 1 ≤ j := by
        rcases Nat.eq_zero_or_pos j with h | h
        · rw [h] at hdm
          omega
        · exact h
      constructor
      · intro hge
        apply mathRound_eq y j
        · norm_num at hge ⊢
          linarith
        · norm_num at c2 ⊢
          linarith
      · intro hlt
        have hpred : mathRound y = j - 1 := by
          apply mathRound_eq
          · rw [Nat.cast_sub hj]
            norm_num at c1 ⊢
            linarith
          · rw [Nat.cast_sub hj]
            norm_num at hlt ⊢
            linarith
        omega

/-! ## Facts about the hour logs -/

theorem getLog_replaceLog (logs : List (Nat × HourLog)) (hour k : Nat) (v : HourLog) :
    getLog (replaceLog logs hour v) k =
      if k = hour then (getLog logs hour).map (fun _ => v) else getLog logs k := by
  induction logs with
  | nil => simp [replaceLog, getLog]
  | cons p rest ih =>
    obtain ⟨k0, l0⟩ := p
    by_cases h0 : k0 = hour
    · subst h0
      by_cases hk : k = k0
      · subst hk
        simp [replaceLog, getLog]
      · have hk1 : ¬ k0 = k := fun e => hk e.symm
        simp [replaceLog, getLog, hk, hk1]
    · by_cases hk : k = hour
      · subst hk
        simp [replaceLog, getLog, h0, ih]
      · by_cases hk0 : k0 = k
        · simp [replaceLog, getLog, h0, hk, hk0]
        · simp [replaceLog, getLog, h0, hk, hk0, ih]

theorem getLog_insertLog_ne (logs : List (Nat × HourLog)) (hour k : Nat) (v : HourLog)
    (hk : k ≠ hour) : getLog (insertLog logs hour v) k = getLog logs k := by
  have hk1 : ¬ hour = k := fun e => hk e.symm
  induction logs with
  | nil => simp [insertLog, getLog, hk1]
  | cons p rest ih =>
    obtain ⟨k0, l0⟩ := p
    by_cases hlt : hour < k0
    · simp [insertLog, getLog, hlt, hk1]
    · by_cases hk0 : k0 = k
      · subst hk0
        simp [insertLog, getLog, hlt]
      · simp [insertLog, getLog, hlt, hk0, ih]

theorem getLog_insertLog_self (logs : List (Nat × HourLog)) (hour : Nat) (v : HourLog)
    (habs : getLog logs hour = none) : getLog (insertLog logs hour v) hour = some v := by
  induction logs with
  | nil => simp [insertLog, getLog]
  | cons p rest ih =>
    obtain ⟨k0, l0⟩ := p
    by_cases h0 : k0 = hour
    · simp [getLog, h0] at habs
    · have hrest : getLog rest hour = none := by simpa [getLog, h0] using habs
      by_cases hlt : hour < k0
      · simp [insertLog, getLog, hlt]
      · simp [insertLog, getLog, hlt, h0, ih hrest]

/-- The assignment `state.logs[hour] = v` changes the property `hour` and no other. -/
theorem getLog_setLog (logs : List (Nat × HourLog)) (hour k : Nat) (v : HourLog) :
    getLog (setLog logs hour v) k = if k = hour then some v else getLog logs k := by
  unfold setLog
  cases hg : getLog logs hour with
  | none =>
    by_cases hk : k = hour
    · subst hk
      simp [getLog_insertLog_self logs k v hg]
    · simp [hk, getLog_insertLog_ne logs hour k v hk]
  | some l =>
    by_cases hk : k = hour
    · subst hk
      simp [getLog_replaceLog, hg]
    · simp [hk, getLog_replaceLog]

theorem length_replaceLog (logs : List (Nat × HourLog)) (hour : Nat) (v : HourLog) :
    (replaceLog logs hour v).length = logs.length := by
  induction logs with
  | nil => rfl
  | cons p rest ih =>
    obtain ⟨k0, l0⟩ := p
    by_cases h0 : k0 = hour <;> simp [replaceLog, h0, ih]

theorem length_insertLog (logs : List (Nat × HourLog)) (hour : Nat) (v : HourLog) :
    (insertLog logs hour v).length = logs.length + 1 := by
  induction logs with
  | nil => rfl
  | cons p rest ih =>
    obtain ⟨k0, l0⟩ := p
    by_cases hlt : hour < k0 <;> simp [insertLog, hlt, ih]

theorem length_setLog_le (logs : List (Nat × HourLog)) (hour : Nat) (v : HourLog) :
    logs.length ≤ (setLog logs hour v).length := by
  unfold setLog
  split
  · rw [length_replaceLog]
  · rw [length_insertLog]
    omega

/-- After the opening statement the slot exists: it is the old one, or the default one. -/
theorem getLog_ensureLog (hour k : Nat) (s : AppState) :
    getLog (ensureLog hour s).logs k =
      if k = hour then some ((getLog s.logs hour).getD { text := "", category := "general" })
      else getLog s.logs k := by
  unfold ensureLog
  cases hg : getLog s.logs hour with
  | none =>
    simp only [Option.isNone_none, if_true, getLog_setLog, Option.getD_none]
  | some l =>
    by_cases hk : k = hour
    · subst hk
      simp [hg]
    · simp [hk]

theorem length_ensureLog_le (hour : Nat) (s : AppState) :
    s.logs.length ≤ (ensureLog hour s).logs.length := by
  unfold ensureLog
  split
  · exact length_setLog_le _ _ _
  · exact Nat.le_refl _

/-- The slots after `updateLog`: slot `hour` is the old slot (or the default one) with the
new text, every other slot is as before. -/
theorem getLog_updateLog (hour k : Nat) (text : String) (s : AppState) :
    getLog (updateLog hour text s).logs k =
      if k = hour then
        some { (getLog s.logs hour).getD { text := "", category := "general" } with
               text := text }
      else getLog s.logs k := by
  have hE := getLog_ensureLog hour hour s
  simp only [if_true] at hE
  unfold updateLog
  simp only [hE, getLog_setLog]
  by_cases hk : k = hour
  · simp [hk]
  · simp [hk, getLog_ensureLog]

/-- The slots after `updateLogCategory`: slot `hour` is the old slot (or the default one)
with the new category, every other slot is as before. -/
theorem getLog_updateLogCategory (hour k : Nat) (category : String) (s : AppState) :
    getLog (updateLogCategory hour category s).logs k =
      if k = hour then
        some { (getLog s.logs hour).getD { text := "", category := "general" } with
               category := category }
      else getLog s.logs k := by
  have hE := getLog_ensureLog hour hour s
  simp only [if_true] at hE
  unfold updateLogCategory
  simp only [hE, getLog_setLog]
  by_cases hk : k = hour
  · simp [hk]
  · simp [hk, getLog_ensureLog]

theorem length_updateLog_le (hour : Nat) (text : String) (s : AppState) :
    s.logs.length ≤ (updateLog hour text s).logs.length := by
  have hE := getLog_ensureLog hour hour s
  simp only [if_true] at hE
  unfold updateLog
  simp only [hE]
  exact Nat.le_trans (length_ensureLog_le hour s) (length_setLog_le _ _ _)

theorem length_updateLogCategory_le (hour : Nat) (category : String) (s : AppState) :
    s.logs.length ≤ (updateLogCategory hour category s).logs.length := by
  have hE := getLog_ensureLog hour hour s
  simp only [if_true] at hE
  unfold updateLogCategory
  simp only [hE]
  exact Nat.le_trans (length_ensureLog_le hour s) (length_setLog_le _ _ _)

/-! ## Theorems -/

/-- C1: for every application state, `completeTimer` leaves the timer inactive and enters
the opposite mode with the countdown reset to that mode's duration: from mode `work` the
session count grows by exactly 1 and the timer ends in mode `break` at 05:00; from mode
`break` the session count is unchanged and the timer ends in mode `work` at 25:00.  Tasks
and hour logs are unchanged in both cases. -/
theorem completeTimer_spec (s : AppState) :
    (completeTimer s).timer.isActive = false ∧
    (completeTimer s).tasks = s.tasks ∧
    (completeTimer s).logs = s.logs ∧
    (s.timer.mode = "work" →
      (completeTimer s).sessions = s.sessions + 1 ∧
      (completeTimer s).timer.mode = "break" ∧
      (completeTimer s).timer.minutes = 5 ∧
      (completeTimer s).timer.seconds = 0 ∧
      (completeTimer s).timerDisplay = "05:00") ∧
    (s.timer.mode = "break" →
      (completeTimer s).sessions = s.sessions ∧
      (completeTimer s).timer.mode = "work" ∧
      (completeTimer s).timer.minutes = 25 ∧
      (completeTimer s).timer.seconds = 0 ∧
      (completeTimer s).timerDisplay = "25:00") := by
  rw [completeTimer_eq]
  refine ⟨rfl, rfl, rfl, ?_, ?_⟩
  · intro hm
    simp only [hm, if_true]
    decide
  · intro hm
    have hne : ¬ ("break" = "work") := by decide
    simp only [hm, hne, if_false]
    decide

/-- C1, instance: completing the initial work countdown of a fresh page. -/
theorem completeTimer_spec_witness :
    (completeTimer (initialState "2024-01-01" "25:00" "Start" "")).sessions = 1 ∧
    (completeTimer (initialState "2024-01-01" "25:00" "Start" "")).timer.mode = "break" ∧
    (completeTimer (initialState "2024-01-01" "25:00" "Start" "")).timer.minutes = 5 ∧
    (completeTimer (initialState "2024-01-01" "25:00" "Start" "")).timer.seconds = 0 ∧
    (completeTimer (initialState "2024-01-01" "25:00" "Start" "")).timerDisplay = "05:00" :=
  (completeTimer_spec (initialState "2024-01-01" "25:00" "Start" "")).2.2.2.1 rfl

/-- C2 (amended): starting from any state with mode `work` and the countdown at 25:00,
the first 1500 calls of `tickTimer` bring the countdown to 00:00 without calling
`completeTimer`; the 1501st call is the one that calls it, so 1501 calls in a row call
`completeTimer` exactly once and end in mode `break` with the countdown reset to 05:00. -/
theorem tickTimer_1501_completes_once (s : AppState) (hmode : s.timer.mode = "work")
    (hmin : s.timer.minutes = 25) (hsec : s.timer.seconds = 0) :
    completionsIn 1500 s = 0 ∧
    completionsIn 1501 s = 1 ∧
    (tickTimerN 1501 s).timer.mode = "break" ∧
    (tickTimerN 1501 s).timer.minutes = 5 ∧
    (tickTimerN 1501 s).timer.seconds = 0 ∧
    (tickTimerN 1501 s).timer.isActive = false ∧
    (tickTimerN 1501 s).sessions = s.sessions + 1 := by
  obtain ⟨hc, h0m, h0s, h0mode, -, h0sess⟩ :=
    tickTimerN_countdown 1500 s (by omega) (by omega)
      (by simp only [remaining, hmin, hsec]; rfl)
  have hcompl : tickCompletes (tickTimerN 1500 s) = true := by
    simp [tickCompletes, h0m, h0s]
  have hlast : tickTimerN 1501 s = completeTimer (tickTimerN 1500 s) := by
    rw [tickTimerN_succ, tickTimer_of_completes _ hcompl]
  have hw : (tickTimerN 1500 s).timer.mode = "work" := h0mode.trans hmode
  have hfinal := completeTimer_eq (tickTimerN 1500 s)
  simp only [hw, if_true] at hfinal
  rw [← hlast] at hfinal
  refine ⟨hc, ?_, ?_, ?_, ?_, ?_, ?_⟩
  · rw [completionsIn_succ, hc, hcompl]
    rfl
  · rw [hfinal]
  · rw [hfinal]
  · rw [hfinal]
  · rw [hfinal]
  · rw [hfinal, h0sess]

/-- C2, instance of the amended statement: 1501 ticks from the initial state. -/
theorem tickTimer_1501_completes_once_witness :
    completionsIn 1500 (initialState "2024-01-01" "25:00" "Start" "") = 0 ∧
    completionsIn 1501 (initialState "2024-01-01" "25:00" "Start" "") = 1 ∧
    (tickTimerN 1501 (initialState "2024-01-01" "25:00" "Start" "")).timer.mode = "break" ∧
    (tickTimerN 1501 (initialState "2024-01-01" "25:00" "Start" "")).timer.minutes = 5 ∧
    (tickTimerN 1501 (initialState "2024-01-01" "25:00" "Start" "")).timer.seconds = 0 ∧
    (tickTimerN 1501 (initialState "2024-01-01" "25:00" "Start" "")).timer.isActive = false ∧
    (tickTimerN 1501 (initialState "2024-01-01" "25:00" "Start" "")).sessions = 0 + 1 :=
  tickTimer_1501_completes_once (initialState "2024-01-01" "25:00" "Start" "") rfl rfl rfl

/-- C2 (as stated, refuted): from the initial state (mode `work`, 25:00) 1500 calls of
`tickTimer` call `completeTimer` not once but zero times, and end in mode `work` at 00:00,
not in mode `break` at 05:00. -/
theorem tickTimer_1500_no_completion :
    completionsIn 1500 (initialState "2024-01-01" "25:00" "Start" "") = 0 ∧
    (tickTimerN 1500 (initialState "2024-01-01" "25:00" "Start" "")).timer.mode = "work" ∧
    (tickTimerN 1500 (initialState "2024-01-01" "25:00" "Start" "")).timer.minutes = 0 ∧
    (tickTimerN 1500 (initialState "2024-01-01" "25:00" "Start" "")).timer.seconds = 0 ∧
    ¬ (completionsIn 1500 (initialState "2024-01-01" "25:00" "Start" "") = 1 ∧
       (tickTimerN 1500 (initialState "2024-01-01" "25:00" "Start" "")).timer.mode = "break" ∧
       (tickTimerN 1500 (initialState "2024-01-01" "25:00" "Start" "")).timer.minutes = 5 ∧
       (tickTimerN 1500 (initialState "2024-01-01" "25:00" "Start" "")).timer.seconds = 0) := by
  obtain ⟨hc, hm, hs, hmode, -, -⟩ :=
    tickTimerN_countdown 1500 (initialState "2024-01-01" "25:00" "Start" "")
      (by decide) (by decide) (by decide)
  refine ⟨hc, hmode, hm, hs, ?_⟩
  rintro ⟨h1, -⟩
  rw [hc] at h1
  exact absurd h1 (by decide)

/-- C3: in every state reachable from an initial state (timer inactive, no interval) by
any sequence of `toggleTimer`, `resetTimer`, `setTimerMode`, `completeTimer` and
`tickTimer` (the last fired only by a live interval), the number of live tick schedulers
is exactly 1 when `isActive` is true and 0 when it is false, so it never exceeds 1; and
when such a state is idle, `toggleTimer` applied twice leaves `isActive = false` with no
live scheduler. -/
theorem one_live_scheduler (s : AppState) (h : Reachable s) :
    s.liveIntervals.length = (if s.timer.isActive = true then 1 else 0) ∧
    s.liveIntervals.length ≤ 1 ∧
    (s.timer.isActive = false → ∀ h1 h2 : Nat,
      (toggleTimer h2 (toggleTimer h1 s)).timer.isActive = false ∧
      (toggleTimer h2 (toggleTimer h1 s)).liveIntervals = []) := by
  have hinv := schedulerInv_of_reachable s h
  have hcount : s.liveIntervals.length = (if s.timer.isActive = true then 1 else 0) := by
    cases hact : s.timer.isActive with
    | false => simp [hinv.2 hact]
    | true =>
      obtain ⟨k, -, hl⟩ := hinv.1 hact
      simp [hl]
  refine ⟨hcount, ?_, ?_⟩
  · rw [hcount]
    split <;> omega
  · intro hact h1 h2
    have hinv2 := schedulerInv_toggleTimer h2 _ (schedulerInv_toggleTimer h1 s hinv)
    have hoff : (toggleTimer h2 (toggleTimer h1 s)).timer.isActive = false := by
      rw [toggleTimer_active h2 _ (by rw [toggleTimer_inactive h1 s hact])]
    exact ⟨hoff, hinv2.2 hoff⟩

/-- C3, instance: the state reached from the initial state by starting the timer (the
browser returning handle 7), letting it tick once and changing the mode. -/
theorem one_live_scheduler_witness :
    Reachable (setTimerMode "break"
      (tickTimer (toggleTimer 7 (initialState "2024-01-01" "25:00" "Start" "")))) ∧
    (setTimerMode "break"
      (tickTimer (toggleTimer 7 (initialState "2024-01-01" "25:00" "Start" "")))).liveIntervals.length
      = 0 :=
  have hr : Reachable (setTimerMode "break"
      (tickTimer (toggleTimer 7 (initialState "2024-01-01" "25:00" "Start" "")))) :=
    Reachable.setMode _ "break"
      (Reachable.tick _ (Reachable.toggle _ 7 (Reachable.init _ rfl rfl rfl)) (by decide))
  ⟨hr, (one_live_scheduler _ hr).1.trans (by decide)⟩

/-- C4 (amended): for every task list with pairwise distinct ids, `toggleTask` and
`deleteTask` produce a list with pairwise distinct ids, and `addTask` does so exactly when
it adds nothing (the trimmed text is empty) or the clock reading used as the new id is
different from every id already in the list. -/
theorem task_ids_stay_distinct (s : AppState) (input : String) (now : Nat)
    (createdAt : String) (id : Nat) (h : (taskIds s.tasks).Nodup) :
    ((taskIds (addTask input now createdAt s).tasks).Nodup ↔
      (jsTrim input = "" ∨ now ∉ taskIds s.tasks)) ∧
    (taskIds (toggleTask id s).tasks).Nodup ∧
    (taskIds (deleteTask id s).tasks).Nodup := by
  refine ⟨?_, ?_, ?_⟩
  · by_cases ht : jsTrim input = ""
    · simp [addTask, ht, h]
    · simp only [addTask, ht, if_false, taskIds, List.map_append, List.map_cons,
        List.map_nil, false_or]
      rw [List.nodup_append]
      constructor
      · rintro ⟨-, -, hd⟩ hmem
        exact hd hmem (List.mem_singleton_self now)
      · intro hnot
        refine ⟨h, List.nodup_singleton now, ?_⟩
        intro a ha hb
        rw [List.mem_singleton] at hb
        exact hnot (hb ▸ ha)
  · rw [taskIds_toggleTask]
    exact h
  · simp only [deleteTask, taskIds]
    exact (List.Nodup.sublist (List.Sublist.map _ (List.filter_sublist _)) h)

/-- C4, instance of the amended statement: a list with ids 5 and 6, new id 7. -/
theorem task_ids_stay_distinct_witness :
    (taskIds (addTask " c " 7 ""
      { initialState "2024-01-01" "25:00" "Start" "" with
        tasks := [{ id := 5, text := "a", completed := false, createdAt := "" },
                  { id := 6, text := "b", completed := true, createdAt := "" }] }).tasks).Nodup :=
  (task_ids_stay_distinct
    { initialState "2024-01-01" "25:00" "Start" "" with
      tasks := [{ id := 5, text := "a", completed := false, createdAt := "" },
                { id := 6, text := "b", completed := true, createdAt := "" }] }
    " c " 7 "" 5 (by decide)).1.mpr (Or.inr (by decide))

/-- C4 (as stated, refuted): the task list with the single id 5 has pairwise distinct ids,
but `addTask` with text `a` at clock reading 5 yields the ids 5, 5. -/
theorem addTask_duplicate_id :
    (taskIds ({ initialState "2024-01-01" "25:00" "Start" "" with
        tasks := [{ id := 5, text := "x", completed := false, createdAt := "" }] }).tasks).Nodup ∧
    taskIds (addTask "a" 5 ""
      { initialState "2024-01-01" "25:00" "Start" "" with
        tasks := [{ id := 5, text := "x", completed := false, createdAt := "" }] }).tasks
      = [5, 5] ∧
    ¬ (taskIds (addTask "a" 5 ""
      { initialState "2024-01-01" "25:00" "Start" "" with
        tasks := [{ id := 5, text := "x", completed := false, createdAt := "" }] }).tasks).Nodup := by
  decide

/-- C5: for every task list and every input text: if the text is empty after trimming,
`addTask` leaves the task list (indeed the whole state) unchanged; otherwise the resulting
list is the original list, unchanged and in the same order, followed by exactly one new
task whose text is the trimmed input and whose completed flag is false. -/
theorem addTask_spec (s : AppState) (input : String) (now : Nat) (createdAt : String) :
    (jsTrim input = "" → addTask input now createdAt s = s) ∧
    (jsTrim input ≠ "" →
      ∃ t : Task, (addTask input now createdAt s).tasks = s.tasks ++ [t] ∧
        t.text = jsTrim input ∧ t.completed = false ∧ t.id = now) := by
  constructor
  · intro h
    simp [addTask, h]
  · intro h
    exact ⟨{ id := now, text := jsTrim input, completed := false, createdAt := createdAt },
      by simp [addTask, h], rfl, rfl, rfl⟩

/-- C5, instance: a blank input changes nothing. -/
theorem addTask_spec_witness :
    addTask " \t\n " 9 "" (initialState "2024-01-01" "25:00" "Start" "") =
      initialState "2024-01-01" "25:00" "Start" "" :=
  (addTask_spec (initialState "2024-01-01" "25:00" "Start" "") " \t\n " 9 "").1 (by decide)

/-- C6: for every task list with pairwise distinct ids and every id: if the id occurs in
the list, `deleteTask` yields a list exactly one entry shorter that contains every other
task unchanged and in the original order and no task with that id; if the id does not
occur, the list is unchanged; and `deleteTask` with the same id applied a second time
changes nothing. -/
theorem deleteTask_spec (s : AppState) (id : Nat) (h : (taskIds s.tasks).Nodup) :
    (id ∈ taskIds s.tasks →
      ∃ (pre : List Task) (t : Task) (post : List Task),
        s.tasks = pre ++ t :: post ∧ t.id = id ∧
        (deleteTask id s).tasks = pre ++ post ∧
        (deleteTask id s).tasks.length + 1 = s.tasks.length ∧
        id ∉ taskIds (deleteTask id s).tasks) ∧
    (id ∉ taskIds s.tasks → (deleteTask id s).tasks = s.tasks) ∧
    deleteTask id (deleteTask id s) = deleteTask id s := by
  refine ⟨?_, ?_, ?_⟩
  · intro hmem
    obtain ⟨t, ht, hid⟩ := List.mem_map.mp hmem
    obtain ⟨pre, post, hsplit⟩ := List.append_of_mem ht
    have hnd := h
    rw [hsplit] at hnd
    simp only [taskIds, List.map_append, List.map_cons] at hnd
    obtain ⟨hpre, hpost, hdisj⟩ := List.nodup_append.mp hnd
    have hpre_not : id ∉ taskIds pre := by
      intro hin
      exact hdisj hin (by rw [hid]; exact List.mem_cons_self _ _)
    have hpost_not : id ∉ taskIds post := by
      intro hin
      have := (List.nodup_cons.mp hpost).1
      exact this (by rw [hid]; exact hin)
    have hres : (deleteTask id s).tasks = pre ++ post := by
      simp only [deleteTask, hsplit, List.filter_append, List.filter_cons, hid]
      simp [filter_ne_of_not_mem id pre hpre_not, filter_ne_of_not_mem id post hpost_not]
    refine ⟨pre, t, post, hsplit, hid, hres, ?_, ?_⟩
    · rw [hres, hsplit]
      simp only [List.length_append, List.length_cons]
      omega
    · rw [hres]
      simp only [taskIds, List.map_append, List.mem_append, not_or]
      exact ⟨hpre_not, hpost_not⟩
  · intro hnot
    exact filter_ne_of_not_mem id s.tasks hnot
  · simp [deleteTask, List.filter_filter]

/-- C6, instance: deleting id 5 from a list with ids 5 and 6 twice is deleting it once. -/
theorem deleteTask_spec_witness :
    deleteTask 5 (deleteTask 5
      { initialState "2024-01-01" "25:00" "Start" "" with
        tasks := [{ id := 5, text := "a", completed := false, createdAt := "" },
                  { id := 6, text := "b", completed := true, createdAt := "" }] }) =
    deleteTask 5
      { initialState "2024-01-01" "25:00" "Start" "" with
        tasks := [{ id := 5, text := "a", completed := false, createdAt := "" },
                  { id := 6, text := "b", completed := true, createdAt := "" }] } :=
  (deleteTask_spec
    { initialState "2024-01-01" "25:00" "Start" "" with
      tasks := [{ id := 5, text := "a", completed := false, createdAt := "" },
                { id := 6, text := "b", completed := true, createdAt := "" }] }
    5 (by decide)).2.2

/-- C7: for every hour log whose slot categories are among general, revision, break and
routine, `calculateStats` returns a table over exactly those four categories in which each
category's total is the number of slots that carry that category and have a text that is
non-empty after trimming (zero when there is none); slots with blank trimmed text
contribute to no total whatever their category (dropping them does not change the
result), and the four totals sum to the number of non-blank slots. -/
theorem calculateStats_spec (s : AppState)
    (hcat : ∀ e ∈ s.logs, e.2.category ∈ categoryNames) :
    (calculateStats s).map (fun p => p.1) = ["revision", "break", "routine", "general"] ∧
    (∀ k ∈ categoryNames, getCount (calculateStats s) k =
      some (s.logs.countP (fun e => decide (e.2.category = k) && nonBlank e.2))) ∧
    calculateStats { s with logs := s.logs.filter (fun e => nonBlank e.2) } =
      calculateStats s ∧
    total (calculateStats s) "general" + total (calculateStats s) "revision" +
      total (calculateStats s) "break" + total (calculateStats s) "routine" =
      s.logs.countP (fun e => nonBlank e.2) := by
  have hcat1 : ∀ l ∈ s.logs.map (fun e => e.2), l.category ∈ categoryNames := by
    intro l hl
    obtain ⟨e, he, rfl⟩ := List.mem_map.mp hl
    exact hcat e he
  have hkeys : (calculateStats s).map (fun p => p.1) =
      ["revision", "break", "routine", "general"] := by
    unfold calculateStats
    rw [keys_foldl]
    · rfl
    · intro l hl
      have := hcat1 l hl
      simp only [categoryNames, List.mem_cons, List.mem_singleton, List.not_mem_nil,
        or_false] at this
      rcases this with h | h | h | h <;> rw [h] <;> decide
  have htotal : ∀ k ∈ categoryNames, total (calculateStats s) k =
      s.logs.countP (fun e => decide (e.2.category = k) && nonBlank e.2) := by
    intro k hk
    unfold calculateStats
    rw [total_foldl, List.countP_map]
    have h0 : total [("revision", 0), ("break", 0), ("routine", 0), ("general", 0)] k = 0 := by
      simp only [categoryNames, List.mem_cons, List.mem_singleton, List.not_mem_nil,
        or_false] at hk
      rcases hk with h | h | h | h <;> rw [h] <;> decide
    rw [h0, Nat.zero_add]
    rfl
  refine ⟨hkeys, ?_, ?_, ?_⟩
  · intro k hk
    rw [getCount_of_mem_keys, htotal k hk]
    rw [hkeys]
    simp only [categoryNames, List.mem_cons, List.mem_singleton, List.not_mem_nil,
      or_false] at hk
    rcases hk with h | h | h | h <;> rw [h] <;> decide
  · unfold calculateStats
    show List.foldl statsStep _ ((s.logs.filter (fun e => nonBlank e.2)).map (fun e => e.2)) = _
    rw [← foldl_statsStep_filter (s.logs.map (fun e => e.2))]
    congr 1
    rw [List.filter_map]
    rfl
  · rw [htotal "general" (by decide), htotal "revision" (by decide),
      htotal "break" (by decide), htotal "routine" (by decide)]
    have := countP_categories (s.logs.map (fun e => e.2)) hcat1
    simp only [List.countP_map] at this
    exact this

/-- C7, instance: three slots, one of them blank; revision gets 1, general 1, break 0. -/
theorem calculateStats_spec_witness :
    getCount (calculateStats
      { initialState "2024-01-01" "25:00" "Start" "" with
        logs := [(8, { text := "maths", category := "revision" }),
                 (9, { text := "  ", category := "break" }),
                 (13, { text := "lunch", category := "general" })] }) "break" = some 0 :=
  ((calculateStats_spec
    { initialState "2024-01-01" "25:00" "Start" "" with
      logs := [(8, { text := "maths", category := "revision" }),
               (9, { text := "  ", category := "break" }),
               (13, { text := "lunch", category := "general" })] }
    (by decide)).2.1 "break" (by decide)).trans (by decide)

/-- C8 (amended): for every 7-entry series of per-day revision-hour counts in Sunday-first
order, the hours reported by the scan of `renderWeekly` equal the maximum of the series;
when that maximum is positive, the reported day is the earliest of the seven days whose
count equals the maximum; when all seven counts are zero, no day is reported (the day name
stays the empty string). -/
theorem renderWeeklyBestDay_spec (series : List Nat) (hlen : series.length = 7) :
    (∀ h ∈ series, h ≤ (renderWeeklyBestDay series).hours) ∧
    (renderWeeklyBestDay series).hours ∈ series ∧
    (0 < (renderWeeklyBestDay series).hours →
      ∃ i, i < 7 ∧ dayNames[i]? = some (renderWeeklyBestDay series).day ∧
        series[i]? = some (renderWeeklyBestDay series).hours ∧
        ∀ j, j < i → ∀ h, series[j]? = some h → h < (renderWeeklyBestDay series).hours) ∧
    ((renderWeeklyBestDay series).hours = 0 → (renderWeeklyBestDay series).day = "") := by
  unfold renderWeeklyBestDay
  rcases bestDayFrom_char series dayNames { day := "", hours := 0 } (by rw [hlen]; rfl) with
    ⟨hr, hall⟩ | ⟨i, d, h, hd, hs, hr, hlt, hpre, hall⟩
  · rw [hr]
    refine ⟨hall, ?_, ?_, ?_⟩
    · cases series with
      | nil => simp at hlen
      | cons a rest =>
        have : a ≤ 0 := hall a (List.mem_cons_self _ _)
        have ha : a = 0 := by omega
        rw [ha]
        exact List.mem_cons_self _ _
    · intro hpos
      exact absurd hpos (by decide)
    · intro _
      rfl
  · rw [hr]
    have hi : i < 7 := by
      obtain ⟨hi, -⟩ := List.getElem?_eq_some.mp hs
      omega
    refine ⟨hall, ?_, ?_, ?_⟩
    · exact List.getElem?_mem hs
    · intro _
      exact ⟨i, hi, hd, hs, hpre⟩
    · intro h0
      have : h = 0 := h0
      have hlt1 : 0 < h := hlt
      omega

/-- C8, instance of the amended statement: day index 2 has 5 revision hours, all other
days fewer; the maximum 5 is reported. -/
theorem renderWeeklyBestDay_spec_witness :
    (renderWeeklyBestDay [1, 0, 5, 5, 2, 0, 3]).hours ∈ [1, 0, 5, 5, 2, 0, 3] ∧
    (renderWeeklyBestDay [1, 0, 5, 5, 2, 0, 3]).day = "Tue" :=
  ⟨(renderWeeklyBestDay_spec [1, 0, 5, 5, 2, 0, 3] rfl).2.1, by decide⟩

/-- C8 (as stated, refuted): for the series of seven zeros the maximum is 0 and the
earliest day reaching it is Sunday, but the scan reports the empty day name, which is
none of the seven days. -/
theorem renderWeeklyBestDay_all_zero :
    (renderWeeklyBestDay [0, 0, 0, 0, 0, 0, 0]).hours = 0 ∧
    (renderWeeklyBestDay [0, 0, 0, 0, 0, 0, 0]).day = "" ∧
    (renderWeeklyBestDay [0, 0, 0, 0, 0, 0, 0]).day ≠ "Sun" ∧
    (renderWeeklyBestDay [0, 0, 0, 0, 0, 0, 0]).day ∉ dayNames := by
  decide

/-- C9 (amended): for every task list with `n < 2^32` tasks (the bound on the length of a
JavaScript array) of which `k` are completed, the momentum percentage computed by
`updateMomentum` is 0 when `n = 0` (no division by zero) and is always an integer between
0 and 100; for `n > 0` it is the double-precision product `(k / n) * 100` rounded to the
nearest integer, halves up.  That value equals `100 k / n` rounded to the nearest integer
(exact arithmetic, halves up) whenever `100 k / n` is not exactly halfway between two
integers; when it is exactly a half, the result is the half rounded up if the
double-precision product is not below `100 k / n`, and one less if the product is below. -/
theorem updateMomentum_spec (s : AppState) (hlen : s.tasks.length < 2 ^ 32) :
    (s.tasks.length = 0 → updateMomentum s = 0) ∧
    updateMomentum s ≤ 100 ∧
    (0 < s.tasks.length →
      updateMomentum s =
        ⌊(mulBinary64 (divBinary64 (completedCount s) s.tasks.length) 100).toRat + 1 / 2⌋₊) ∧
    (0 < s.tasks.length →
      (200 * completedCount s + s.tasks.length) % (2 * s.tasks.length) ≠ 0 →
      updateMomentum s = roundHalfUp (100 * completedCount s) s.tasks.length) ∧
    (0 < s.tasks.length →
      (200 * completedCount s + s.tasks.length) % (2 * s.tasks.length) = 0 →
      ((100 * completedCount s : ℚ) / s.tasks.length ≤
          (mulBinary64 (divBinary64 (completedCount s) s.tasks.length) 100).toRat →
        updateMomentum s = roundHalfUp (100 * completedCount s) s.tasks.length) ∧
      ((mulBinary64 (divBinary64 (completedCount s) s.tasks.length) 100).toRat <
          (100 * completedCount s : ℚ) / s.tasks.length →
        updateMomentum s + 1 = roundHalfUp (100 * completedCount s) s.tasks.length)) := by
  have hkn : completedCount s ≤ s.tasks.length := List.length_filter_le _ _
  have hu : updateMomentum s = percentage (completedCount s) s.tasks.length := rfl
  rw [hu]
  refine ⟨?_, percentage_le _ _ hkn, ?_, ?_, ?_⟩
  · intro h0
    simp [percentage, h0]
  · intro hpos
    rw [← mathRound_eq_floor]
    simp [percentage, hpos]
  · intro hpos
    exact (percentage_exact _ _ hkn hpos hlen).1
  · intro hpos
    exact (percentage_exact _ _ hkn hpos hlen).2

/-- C9, instance of the amended statement: with one of eight tasks completed `100 k / n`
is the exact half 12.5, the double-precision product is 12.5 too, and the result is 13. -/
theorem updateMomentum_spec_witness :
    updateMomentum { initialState "2024-01-01" "25:00" "Start" "" with
      tasks := sampleTasks 1 8 } = 13 :=
  ((updateMomentum_spec { initialState "2024-01-01" "25:00" "Start" "" with
      tasks := sampleTasks 1 8 } (by decide)).2.2.2.2 (by decide) (by decide)).1
    (by
      have hk : completedCount { initialState "2024-01-01" "25:00" "Start" "" with
          tasks := sampleTasks 1 8 } = 1 := by decide
      have hn : ({ initialState "2024-01-01" "25:00" "Start" "" with
          tasks := sampleTasks 1 8 } : AppState).tasks.length = 8 := by decide
      have hy : mulBinary64 (divBinary64 1 8) 100 = { mant := 7036874417766400, scale := 49 } := by
        decide
      rw [hk, hn, hy]
      norm_num [Binary64.toRat])

/-- C9 (as stated, refuted): with 23 of 40 tasks completed, `100 k / n` is 57.5, which
rounds to 58 with halves rounded up, but `updateMomentum` computes 57: the double nearest
to 23/40 is below 0.575, and its product with 100 rounds to a double below 57.5. -/
theorem updateMomentum_23_of_40 :
    ({ initialState "2024-01-01" "25:00" "Start" "" with
      tasks := sampleTasks 23 40 } : AppState).tasks.length = 40 ∧
    completedCount { initialState "2024-01-01" "25:00" "Start" "" with
      tasks := sampleTasks 23 40 } = 23 ∧
    roundHalfUp (100 * 23) 40 = 58 ∧
    updateMomentum { initialState "2024-01-01" "25:00" "Start" "" with
      tasks := sampleTasks 23 40 } = 57 ∧
    (mulBinary64 (divBinary64 23 40) 100).toRat < 115 / 2 := by
  refine ⟨by decide, by decide, by decide, by decide, ?_⟩
  have h : mulBinary64 (divBinary64 23 40) 100 =
      { mant := 8092405580431359, scale := 47 } := by decide
  rw [h]
  norm_num [Binary64.toRat]

/-- C10: for every timer state with `0 ≤ minutes ≤ 59` and `0 ≤ seconds ≤ 59`: if the
countdown is not 00:00, `tickTimer` yields a state whose remaining time
`60 * minutes + seconds` is exactly one less, with minutes and seconds again in 0..59
(seconds 0 becomes minutes - 1 and seconds 59), and with mode, `isActive` and the session
count unchanged; if the countdown is 00:00, `tickTimer` is `completeTimer`.  Minutes and
seconds never become negative. -/
theorem tickTimer_spec (s : AppState)
    (hmin : 0 ≤ s.timer.minutes ∧ s.timer.minutes ≤ 59)
    (hsec : 0 ≤ s.timer.seconds ∧ s.timer.seconds ≤ 59) :
    (¬ (s.timer.minutes = 0 ∧ s.timer.seconds = 0) →
      remaining (tickTimer s) = remaining s - 1 ∧
      (0 ≤ (tickTimer s).timer.minutes ∧ (tickTimer s).timer.minutes ≤ 59) ∧
      (0 ≤ (tickTimer s).timer.seconds ∧ (tickTimer s).timer.seconds ≤ 59) ∧
      (s.timer.seconds = 0 →
        (tickTimer s).timer.minutes = s.timer.minutes - 1 ∧
        (tickTimer s).timer.seconds = 59) ∧
      (0 < s.timer.seconds →
        (tickTimer s).timer.minutes = s.timer.minutes ∧
        (tickTimer s).timer.seconds = s.timer.seconds - 1) ∧
      (tickTimer s).timer.mode = s.timer.mode ∧
      (tickTimer s).timer.isActive = s.timer.isActive ∧
      (tickTimer s).sessions = s.sessions) ∧
    (s.timer.minutes = 0 ∧ s.timer.seconds = 0 → tickTimer s = completeTimer s) ∧
    0 ≤ (tickTimer s).timer.minutes ∧ 0 ≤ (tickTimer s).timer.seconds := by
  obtain ⟨hm0, hm59⟩ := hmin
  obtain ⟨hs0, hs59⟩ := hsec
  by_cases hs : s.timer.seconds > 0
  · have ht := tickTimer_of_seconds_pos s hs
    have e1 : (tickTimer s).timer.minutes = s.timer.minutes := by rw [ht]
    have e2 : (tickTimer s).timer.seconds = s.timer.seconds - 1 := by rw [ht]
    refine ⟨fun _ => ⟨?_, ?_, ?_, ?_, fun _ => ⟨e1, e2⟩, by rw [ht], by rw [ht], by rw [ht]⟩,
      ?_, ?_, ?_⟩
    · simp only [remaining, e1, e2]; omega
    · rw [e1]; exact ⟨hm0, hm59⟩
    · rw [e2]; omega
    · intro h0; omega
    · rintro ⟨-, h0⟩; omega
    · rw [e1]; exact hm0
    · rw [e2]; omega
  · by_cases hm : s.timer.minutes > 0
    · have ht := tickTimer_of_minutes_pos s hs hm
      have e1 : (tickTimer s).timer.minutes = s.timer.minutes - 1 := by rw [ht]
      have e2 : (tickTimer s).timer.seconds = 59 := by rw [ht]
      refine ⟨fun _ => ⟨?_, ?_, ?_, fun _ => ⟨e1, e2⟩, ?_, by rw [ht], by rw [ht],
        by rw [ht]⟩, ?_, ?_, ?_⟩
      · simp only [remaining, e1, e2]; omega
      · rw [e1]; omega
      · rw [e2]; omega
      · intro hpos; exact absurd hpos hs
      · rintro ⟨h0, -⟩; omega
      · rw [e1]; omega
      · rw [e2]; omega
    · have hc : tickCompletes s = true := by simp [tickCompletes, hs, hm]
      have ht := tickTimer_of_completes s hc
      refine ⟨fun hne => absurd ⟨by omega, by omega⟩ hne, fun _ => ht, ?_, ?_⟩
      · rw [ht, completeTimer_eq]
        show (0 : Int) ≤ if s.timer.mode = "work" then 5 else 25
        split <;> omega
      · rw [ht, completeTimer_eq]

/-- C10, instance: one tick at 24:00 of a running work countdown gives 23:59. -/
theorem tickTimer_spec_witness :
    (tickTimer { initialState "2024-01-01" "25:00" "Start" "" with
      timer := { minutes := 24, seconds := 0, isActive := true, mode := "work",
                 interval := some 1 },
      liveIntervals := [1] }).timer.minutes = 24 - 1 ∧
    (tickTimer { initialState "2024-01-01" "25:00" "Start" "" with
      timer := { minutes := 24, seconds := 0, isActive := true, mode := "work",
                 interval := some 1 },
      liveIntervals := [1] }).timer.seconds = 59 :=
  ((tickTimer_spec { initialState "2024-01-01" "25:00" "Start" "" with
      timer := { minutes := 24, seconds := 0, isActive := true, mode := "work",
                 interval := some 1 },
      liveIntervals := [1] } (by decide) (by decide)).1 (by decide)).2.2.2.1 rfl

/-- C11: for every hour log, every hour (in particular every hour in 0..23), every text
and every category: `updateLog` yields a log whose slot for that hour has the new text and
the category it had before, or `general` if the slot was absent; `updateLogCategory`
yields a log whose slot for that hour has the new category and the text it had before, or
the empty string if the slot was absent; in both cases every other slot is unchanged and
no slot is removed. -/
theorem updateLog_frame (s : AppState) (hour : Nat) (text category : String) :
    (∀ log, getLog s.logs hour = some log →
      getLog (updateLog hour text s).logs hour =
        some { text := text, category := log.category }) ∧
    (getLog s.logs hour = none →
      getLog (updateLog hour text s).logs hour =
        some { text := text, category := "general" }) ∧
    (∀ log, getLog s.logs hour = some log →
      getLog (updateLogCategory hour category s).logs hour =
        some { text := log.text, category := category }) ∧
    (getLog s.logs hour = none →
      getLog (updateLogCategory hour category s).logs hour =
        some { text := "", category := category }) ∧
    (∀ k, k ≠ hour →
      getLog (updateLog hour text s).logs k = getLog s.logs k ∧
      getLog (updateLogCategory hour category s).logs k = getLog s.logs k) ∧
    (∀ k, (getLog s.logs k).isSome = true →
      (getLog (updateLog hour text s).logs k).isSome = true ∧
      (getLog (updateLogCategory hour category s).logs k).isSome = true) ∧
    s.logs.length ≤ (updateLog hour text s).logs.length ∧
    s.logs.length ≤ (updateLogCategory hour category s).logs.length := by
  refine ⟨?_, ?_, ?_, ?_, ?_, ?_, length_updateLog_le hour text s,
    length_updateLogCategory_le hour category s⟩
  · intro log hlog
    rw [getLog_updateLog, if_pos rfl, hlog]
    rfl
  · intro hnone
    rw [getLog_updateLog, if_pos rfl, hnone]
    rfl
  · intro log hlog
    rw [getLog_updateLogCategory, if_pos rfl, hlog]
    rfl
  · intro hnone
    rw [getLog_updateLogCategory, if_pos rfl, hnone]
    rfl
  · intro k hk
    rw [getLog_updateLog, getLog_updateLogCategory, if_neg hk, if_neg hk]
    exact ⟨rfl, rfl⟩
  · intro k hsome
    rw [getLog_updateLog, getLog_updateLogCategory]
    by_cases hk : k = hour
    · rw [if_pos hk, if_pos hk]
      exact ⟨rfl, rfl⟩
    · rw [if_neg hk, if_neg hk]
      exact ⟨hsome, hsome⟩

/-- C11, instance: setting the category of hour 9, absent from a log that has hour 8,
creates the slot with empty text. -/
theorem updateLog_frame_witness :
    getLog (updateLogCategory 9 "revision"
      { initialState "2024-01-01" "25:00" "Start" "" with
        logs := [(8, { text := "maths", category := "revision" })] }).logs 9 =
      some { text := "", category := "revision" } :=
  (updateLog_frame
    { initialState "2024-01-01" "25:00" "Start" "" with
      logs := [(8, { text := "maths", category := "revision" })] }
    9 "x" "revision").2.2.2.1 (by decide)

end TimeTracker
